import Mathlib

/-!
Verification of the mlrun/controller metadata service core
(`src/pkg/db/handlers.go`): the merge-patch engine
(`dotSeparatedPathToJSON` over `sjson.SetBytes`), the label-predicate
parser (`labelParsingRegex` / `parseLabelToV3IOFilterSubexpression`),
the attribute encoder (`metadataToV3ioAttributes` instantiated at the
two envelope types), the run-listing assembly (`listRunsHandler`), and
the query-parameter handling those handlers perform.

The embedding works on parsed JSON values (an inductive `JSON` covering
the null/bool/integer/string/object fragment the handlers manipulate;
byte-level (de)serialization and the sjson array-index path components
are outside the modelled fragment) and on explicit association lists in
place of Go maps, with the Go nil-map distinction made explicit where a
handler relies on it.
-/

/-- JSON values in the object/scalar fragment handled by the merge
engine.  Objects are association lists in textual field order; numbers
are integers (the documents in the claims use only integral numbers). -/
inductive JSON where
  | null : JSON
  | bool (b : Bool) : JSON
  | num (n : Int) : JSON
  | str (s : String) : JSON
  | obj (fields : List (String × JSON)) : JSON

mutual

/-- Decidable equality for `JSON` (the derive handler does not support
the nested `List` occurrence). -/
def JSON.decEq : (a b : JSON) → Decidable (a = b)
  | .null, .null => .isTrue rfl
  | .null, .bool _ => .isFalse (fun h => JSON.noConfusion h)
  | .null, .num _ => .isFalse (fun h => JSON.noConfusion h)
  | .null, .str _ => .isFalse (fun h => JSON.noConfusion h)
  | .null, .obj _ => .isFalse (fun h => JSON.noConfusion h)
  | .bool _, .null => .isFalse (fun h => JSON.noConfusion h)
  | .bool x, .bool y =>
    if h : x = y then .isTrue (congrArg JSON.bool h)
    else .isFalse (fun he => h (JSON.bool.inj he))
  | .bool _, .num _ => .isFalse (fun h => JSON.noConfusion h)
  | .bool _, .str _ => .isFalse (fun h => JSON.noConfusion h)
  | .bool _, .obj _ => .isFalse (fun h => JSON.noConfusion h)
  | .num _, .null => .isFalse (fun h => JSON.noConfusion h)
  | .num _, .bool _ => .isFalse (fun h => JSON.noConfusion h)
  | .num x, .num y =>
    if h : x = y then .isTrue (congrArg JSON.num h)
    else .isFalse (fun he => h (JSON.num.inj he))
  | .num _, .str _ => .isFalse (fun h => JSON.noConfusion h)
  | .num _, .obj _ => .isFalse (fun h => JSON.noConfusion h)
  | .str _, .null => .isFalse (fun h => JSON.noConfusion h)
  | .str _, .bool _ => .isFalse (fun h => JSON.noConfusion h)
  | .str _, .num _ => .isFalse (fun h => JSON.noConfusion h)
  | .str x, .str y =>
    if h : x = y then .isTrue (congrArg JSON.str h)
    else .isFalse (fun he => h (JSON.str.inj he))
  | .str _, .obj _ => .isFalse (fun h => JSON.noConfusion h)
  | .obj _, .null => .isFalse (fun h => JSON.noConfusion h)
  | .obj _, .bool _ => .isFalse (fun h => JSON.noConfusion h)
  | .obj _, .num _ => .isFalse (fun h => JSON.noConfusion h)
  | .obj _, .str _ => .isFalse (fun h => JSON.noConfusion h)
  | .obj fs, .obj gs =>
    match JSON.decEqFields fs gs with
    | .isTrue h => .isTrue (congrArg JSON.obj h)
    | .isFalse h => .isFalse (fun he => h (JSON.obj.inj he))

/-- Decidable equality on object field lists. -/
def JSON.decEqFields : (fs gs : List (String × JSON)) → Decidable (fs = gs)
  | [], [] => .isTrue rfl
  | [], _ :: _ => .isFalse (fun h => List.noConfusion h)
  | _ :: _, [] => .isFalse (fun h => List.noConfusion h)
  | (k, v) :: fs, (l, w) :: gs =>
    if hk : k = l then
      match JSON.decEq v w with
      | .isTrue hv =>
        match JSON.decEqFields fs gs with
        | .isTrue ht => .isTrue (by rw [hk, hv, ht])
        | .isFalse ht => .isFalse (by
            intro he
            injection he with h1 h2
            exact ht h2)
      | .isFalse hv => .isFalse (by
          intro he
          injection he with h1 h2
          exact hv (congrArg Prod.snd h1))
    else .isFalse (by
      intro he
      injection he with h1 h2
      exact hk (congrArg Prod.fst h1))

end

instance : DecidableEq JSON := JSON.decEq

/-- Go-map read on an association list: first binding for `k`, if any. -/
def alGet {κ α : Type} [DecidableEq κ] : List (κ × α) → κ → Option α
  | [], _ => none
  | (k', v) :: m, k => if k' = k then some v else alGet m k

/-- Go-map write on an association list: overwrite the binding for `k`
if present, append it otherwise. -/
def alSet {κ α : Type} [DecidableEq κ] : List (κ × α) → κ → α → List (κ × α)
  | [], k, v => [(k, v)]
  | (k', w) :: m, k, v => if k' = k then (k, v) :: m else (k', w) :: alSet m k v

/-- Split a character list at every occurrence of `sep`. -/
def splitCharsOn (sep : Char) : List Char → List (List Char)
  | [] => [[]]
  | c :: cs =>
    let r := splitCharsOn sep cs
    if c = sep then [] :: r
    else
      match r with
      | [] => [[c]]
      | g :: gs => (c :: g) :: gs

/-- A dot-separated patch key as the list of its path components (the
splitting the sjson path parser performs). -/
def splitPath (s : String) : List String :=
  (splitCharsOn '.' s.data).map (fun l => String.mk l)

/-- The character scan of the sjson path parser: a `\` escapes the
following character; an unescaped `*` or `?` is rejected with
"wildcard characters not allowed in path", an unescaped `#` with
"array access character not allowed in path". -/
def sjsonPathScanAux : Bool → List Char → Bool
  | _, [] => false
  | true, _ :: rest => sjsonPathScanAux false rest
  | false, c :: rest =>
    if c = '\\' then sjsonPathScanAux true rest
    else (c = '*' || c = '?' || c = '#') || sjsonPathScanAux false rest

/-- The paths `sjson.SetBytes` rejects with an error: the empty path
("path cannot be empty") and paths containing an unescaped wildcard or
array-access character. -/
def sjsonPathRejected (k : String) : Prop :=
  k = "" ∨ sjsonPathScanAux false k.data = true

instance (k : String) : Decidable (sjsonPathRejected k) :=
  inferInstanceAs (Decidable (_ ∨ _))

/-- A dot-separated path on which `sjson.SetBytes` acts as a plain
nested-object write: non-empty, free of wildcard / array-access /
escape characters, and with no component that is empty, starts with
the `:` force prefix, or consists of digits and `-` only (numeric
components drive the sjson array machinery, creating null-padded
arrays at missing paths). -/
def SjsonPlainKey (k : String) : Prop :=
  k ≠ "" ∧
  (∀ c ∈ k.data, c ≠ '*' ∧ c ≠ '?' ∧ c ≠ '#' ∧ c ≠ '\\') ∧
  ∀ p ∈ splitPath k, p ≠ "" ∧ p.data.head? ≠ some ':' ∧
    ¬ ∀ c ∈ p.data, (c.isDigit = true ∨ c = '-')

instance (k : String) : Decidable (SjsonPlainKey k) := by
  unfold SjsonPlainKey
  infer_instance

/-- The accepted-path write of `sjson.SetBytes` on plain object
components: walk the dot-path, descending into objects, creating
intermediate objects for missing keys, and replacing any non-object
value encountered mid-path; the final component has its value
overwritten (or appended).  Faithful on `SjsonPlainKey` paths; numeric,
`:`-forced and escaped components trigger the sjson array/escape
machinery and are outside the modelled fragment (the theorems
hypothesize them away). -/
def sjsonSet : JSON → List String → JSON → JSON
  | _, [], v => v
  | JSON.obj fields, k :: rest, v =>
    JSON.obj (alSet fields k (sjsonSet ((alGet fields k).getD (JSON.obj [])) rest v))
  | _, k :: rest, v => JSON.obj [(k, sjsonSet (JSON.obj []) rest v)]

/-- `sjson.SetBytes`: a rejected path returns an error, an accepted
path is written. -/
def sjsonSetBytes (body : JSON) (key : String) (v : JSON) : Option JSON :=
  if sjsonPathRejected key then none
  else some (sjsonSet body (splitPath key) v)

/-- Reading a value at a path: descend through object fields. -/
def getPath : JSON → List String → Option JSON
  | d, [] => some d
  | JSON.obj fields, k :: rest =>
    match alGet fields k with
    | some w => getPath w rest
    | none => none
  | _, _ :: _ => none

/-- `json.Unmarshal` of a JSON value into a `map[string]interface{}`:
objects succeed (later duplicate keys overwrite earlier ones), JSON
`null` succeeds leaving the freshly made map empty, and every other
value fails with an unmarshal type error. -/
def unmarshalMap : JSON → Option (List (String × JSON))
  | JSON.obj fields => some (fields.foldl (fun m kv => alSet m kv.1 kv.2) [])
  | JSON.null => some []
  | _ => none

/-- Application of the patch fields in iteration order: each key is a
dot-separated path set into the body via `sjson.SetBytes`.  (Go map
iteration order is unspecified; the model iterates in the deduplicated
textual field order.) -/
def applyPatchFields (body : JSON) (fs : List (String × JSON)) : JSON :=
  fs.foldl (fun b kv => sjsonSet b (splitPath kv.1) kv.2) body

/-- `dotSeparatedPathToJSON` (handlers.go:831-844): unmarshal the patch
into a string-keyed map, then set the dot-path of every key into the
body via `sjson.SetBytes`, returning the first error — either the
unmarshal failure or an sjson path rejection inside the loop
(handlers.go:838-840). -/
def dotSeparatedPathToJSON (dotSeparatedPatch : JSON) (jsonBody : JSON) : Option JSON :=
  match unmarshalMap dotSeparatedPatch with
  | none => none
  | some fs => fs.foldlM (fun b kv => sjsonSetBytes b kv.1 kv.2) jsonBody

theorem sjsonPathScanAux_false_of_clean (cs : List Char)
    (h : ∀ c ∈ cs, c ≠ '*' ∧ c ≠ '?' ∧ c ≠ '#') :
    ∀ esc : Bool, sjsonPathScanAux esc cs = false := by
  induction cs with
  | nil => intro esc; cases esc <;> rfl
  | cons c rest ih =>
    intro esc
    have hc := h c (List.mem_cons_self c rest)
    have ihr := ih (fun d hd => h d (List.mem_cons_of_mem c hd))
    cases esc with
    | true => exact ihr false
    | false =>
      by_cases hb : c = '\\'
      · simp only [sjsonPathScanAux, if_pos hb]
        exact ihr true
      · simp only [sjsonPathScanAux, if_neg hb]
        simp [hc.1, hc.2.1, hc.2.2, ihr false]

theorem SjsonPlainKey.not_rejected {k : String} (h : SjsonPlainKey k) :
    ¬ sjsonPathRejected k := by
  obtain ⟨hne, hchars, _⟩ := h
  intro hrej
  rcases hrej with hrej | hrej
  · exact hne hrej
  · rw [sjsonPathScanAux_false_of_clean k.data
      (fun c hc => ⟨(hchars c hc).1, (hchars c hc).2.1, (hchars c hc).2.2.1⟩) false] at hrej
    cases hrej

theorem foldlM_sjsonSetBytes (fs : List (String × JSON)) :
    ∀ body : JSON, (∀ kv ∈ fs, ¬ sjsonPathRejected kv.1) →
      fs.foldlM (fun b kv => sjsonSetBytes b kv.1 kv.2) body =
        some (applyPatchFields body fs) := by
  induction fs with
  | nil => intro body _; rfl
  | cons kv t ih =>
    intro body h
    have hkv := h kv (List.mem_cons_self kv t)
    have hstep : sjsonSetBytes body kv.1 kv.2 =
        some (sjsonSet body (splitPath kv.1) kv.2) := by
      simp [sjsonSetBytes, hkv]
    rw [List.foldlM_cons, hstep]
    show List.foldlM _ (sjsonSet body (splitPath kv.1) kv.2) t = _
    rw [ih _ (fun p hp => h p (List.mem_cons_of_mem kv hp))]
    rfl

theorem mem_alSet {κ α : Type} [DecidableEq κ] (m : List (κ × α)) (k : κ) (v : α) :
    ∀ kv ∈ alSet m k v, kv ∈ m ∨ kv.1 = k := by
  induction m with
  | nil =>
    intro kv hkv
    simp only [alSet] at hkv
    rcases List.mem_singleton.mp hkv with rfl
    exact Or.inr rfl
  | cons a m ih =>
    intro kv hkv
    obtain ⟨k2, w⟩ := a
    by_cases hk : k2 = k
    · subst hk
      simp only [alSet, if_pos rfl] at hkv
      rcases List.mem_cons.mp hkv with h1 | h1
      · exact Or.inr (h1 ▸ rfl)
      · exact Or.inl (List.mem_cons_of_mem _ h1)
    · simp only [alSet, if_neg hk] at hkv
      rcases List.mem_cons.mp hkv with h1 | h1
      · exact Or.inl (h1 ▸ List.mem_cons_self _ _)
      · rcases ih kv h1 with h2 | h2
        · exact Or.inl (List.mem_cons_of_mem _ h2)
        · exact Or.inr h2

theorem mem_foldl_alSet_keys (fs : List (String × JSON)) :
    ∀ (acc : List (String × JSON)) (kv : String × JSON),
      kv ∈ fs.foldl (fun m p => alSet m p.1 p.2) acc →
      kv ∈ acc ∨ ∃ p ∈ fs, kv.1 = p.1 := by
  induction fs with
  | nil => intro acc kv h; exact Or.inl h
  | cons p t ih =>
    intro acc kv h
    simp only [List.foldl_cons] at h
    rcases ih (alSet acc p.1 p.2) kv h with h1 | h1
    · rcases mem_alSet acc p.1 p.2 kv h1 with h2 | h2
      · exact Or.inl h2
      · exact Or.inr ⟨p, List.mem_cons_self p t, h2⟩
    · obtain ⟨q, hq, he⟩ := h1
      exact Or.inr ⟨q, List.mem_cons_of_mem p hq, he⟩

theorem alGet_alSet_self {κ α : Type} [DecidableEq κ] (m : List (κ × α)) (k : κ) (v : α) :
    alGet (alSet m k v) k = some v := by
  induction m with
  | nil => simp [alSet, alGet]
  | cons kv m ih =>
    obtain ⟨k', w⟩ := kv
    by_cases h : k' = k
    · subst h; simp [alSet, alGet]
    · simp [alSet, alGet, h, ih]

theorem alGet_alSet_ne {κ α : Type} [DecidableEq κ] (m : List (κ × α)) {k j : κ} (v : α)
    (h : j ≠ k) : alGet (alSet m k v) j = alGet m j := by
  induction m with
  | nil => simp [alSet, alGet, Ne.symm h]
  | cons kv m ih =>
    obtain ⟨k', w⟩ := kv
    by_cases hk : k' = k
    · subst hk
      simp [alSet, alGet, Ne.symm h]
    · simp [alSet, alGet, hk, ih]

/-- Setting a path makes that path hold the new value. -/
theorem getPath_sjsonSet_self (p : List String) (d v : JSON) :
    getPath (sjsonSet d p v) p = some v := by
  induction p generalizing d with
  | nil => simp [sjsonSet, getPath]
  | cons k rest ih =>
    cases d with
    | obj fields => simp [sjsonSet, getPath, alGet_alSet_self, ih]
    | null => simp [sjsonSet, getPath, alGet, ih]
    | bool b => simp [sjsonSet, getPath, alGet, ih]
    | num n => simp [sjsonSet, getPath, alGet, ih]
    | str s => simp [sjsonSet, getPath, alGet, ih]

/-- Setting a path leaves every path not prefix-related to it unchanged. -/
theorem getPath_sjsonSet_frame (q p : List String) (d v : JSON)
    (hpq : ¬ p <+: q) (hqp : ¬ q <+: p) :
    getPath (sjsonSet d q v) p = getPath d p := by
  induction q generalizing d p with
  | nil => exact absurd List.nil_prefix hqp
  | cons k qrest ih =>
    cases p with
    | nil => exact absurd List.nil_prefix hpq
    | cons j prest =>
      by_cases hjk : j = k
      · subst hjk
        have hpq' : ¬ prest <+: qrest := fun h => hpq (List.cons_prefix_cons.mpr ⟨rfl, h⟩)
        have hqp' : ¬ qrest <+: prest := fun h => hqp (List.cons_prefix_cons.mpr ⟨rfl, h⟩)
        cases d with
        | obj fields =>
          cases hf : alGet fields j with
          | some w =>
            simp [sjsonSet, getPath, hf, alGet_alSet_self, ih prest w hpq' hqp']
          | none =>
            have hnone : getPath (sjsonSet (JSON.obj []) qrest v) prest =
                getPath (JSON.obj []) prest := ih prest (JSON.obj []) hpq' hqp'
            have hprest : prest ≠ [] := by
              intro h
              subst h
              exact hpq' List.nil_prefix
            cases prest with
            | nil => exact absurd rfl hprest
            | cons a as =>
              simp [sjsonSet, getPath, hf, alGet_alSet_self, hnone, alGet]
        | null =>
          have hnone := ih prest (JSON.obj []) hpq' hqp'
          cases prest with
          | nil => exact absurd List.nil_prefix hpq'
          | cons a as => simp [sjsonSet, getPath, alGet, hnone]
        | bool b =>
          have hnone := ih prest (JSON.obj []) hpq' hqp'
          cases prest with
          | nil => exact absurd List.nil_prefix hpq'
          | cons a as => simp [sjsonSet, getPath, alGet, hnone]
        | num n =>
          have hnone := ih prest (JSON.obj []) hpq' hqp'
          cases prest with
          | nil => exact absurd List.nil_prefix hpq'
          | cons a as => simp [sjsonSet, getPath, alGet, hnone]
        | str s =>
          have hnone := ih prest (JSON.obj []) hpq' hqp'
          cases prest with
          | nil => exact absurd List.nil_prefix hpq'
          | cons a as => simp [sjsonSet, getPath, alGet, hnone]
      · cases d with
        | obj fields =>
          simp [sjsonSet, getPath, alGet_alSet_ne _ _ hjk]
        | null => simp [sjsonSet, getPath, alGet, Ne.symm hjk]
        | bool b => simp [sjsonSet, getPath, alGet, Ne.symm hjk]
        | num n => simp [sjsonSet, getPath, alGet, Ne.symm hjk]
        | str s => simp [sjsonSet, getPath, alGet, Ne.symm hjk]

/-- The character class kept by `encodeRegex` = `[^a-zA-Z0-9_]`
(handlers.go:51): letters, digits and underscore survive, every other
rune is replaced. -/
def isAttrChar (c : Char) : Bool :=
  ('a' ≤ c && c ≤ 'z') || ('A' ≤ c && c ≤ 'Z') || ('0' ≤ c && c ≤ '9') || c = '_'

/-- Per-rune action of `encodeRegex.ReplaceAllString(name, "_")`. -/
def encodeChar (c : Char) : Char := if isAttrChar c then c else '_'

/-- `encodeAttributeName` (handlers.go:115). -/
def encodeAttributeName (name : String) : String := String.mk (name.data.map encodeChar)

/-- One backtracking attempt of `labelParsingRegex` = `(.+)(~=|!=|=)`
followed by `(.+)` (handlers.go:52) at split position `i` (group 1 is
`cs[0..i)`): the alternation is tried in order `~=`, `!=`, `=`, and
group 3 must be non-empty.  Returns the matched operator and its
length. -/
def opMatchAt (cs : List Char) (i : Nat) : Option (String × Nat) :=
  if cs.getD i ' ' = '~' ∧ cs.getD (i + 1) ' ' = '=' ∧ i + 2 < cs.length then some ("~=", 2)
  else if cs.getD i ' ' = '!' ∧ cs.getD (i + 1) ' ' = '=' ∧ i + 2 < cs.length then some ("!=", 2)
  else if cs.getD i ' ' = '=' ∧ i + 1 < cs.length then some ("=", 1)
  else none

/-- The Go regexp package promises leftmost-first (Perl-style
backtracking) semantics, so the greedy first `.+` makes the match with
the largest split index win; `bestSplitAux cs n` scans the candidate
split positions n, n-1, …, 1. -/
def bestSplitAux (cs : List Char) : Nat → Option (Nat × String × Nat)
  | 0 => none
  | n + 1 =>
    match opMatchAt cs (n + 1) with
    | some (op, len) => some (n + 1, op, len)
    | none => bestSplitAux cs n

/-- The backtracking search for `labelParsingRegex` within one
newline-free segment: the greedy first `.+` takes the largest split at
which an operator (tried in alternation order) matches with a
non-empty remainder; the trailing `(.+)`, also greedy and followed by
nothing, extends to the end of the segment. -/
def findLabelSubmatchSeg (cs : List Char) : Option (String × String × String) :=
  match bestSplitAux cs cs.length with
  | none => none
  | some (i, op, len) =>
    some (String.mk (cs.take i), op, String.mk (cs.drop (i + len)))

/-- `labelParsingRegex.FindStringSubmatch`: the `.` metacharacter of a
Go regexp does not match a newline, so no match spans lines; within a
line, the first group can always be stretched back to the start of
that line (`.` matches every other character), so the leftmost-first
match is the greedy match inside the first newline-separated segment
that has one. -/
def findLabelSubmatch (text : String) : Option (String × String × String) :=
  (splitCharsOn '\n' text.data).findSome? findLabelSubmatchSeg

/-- `parseLabelToV3IOFilterSubexpression` (handlers.go:171). -/
def parseLabelToV3IOFilterSubexpression (labelPrefix : String) (text : String) : String :=
  let lp := if labelPrefix ≠ "" then labelPrefix ++ "." else labelPrefix
  match findLabelSubmatch text with
  | none => "exists(" ++ encodeAttributeName (lp ++ text) ++ ")"
  | some (g1, op, g3) =>
    let label := encodeAttributeName (lp ++ g1)
    if op = "~=" then "contains(" ++ label ++ ",\x27" ++ g3 ++ "\x27)"
    else if op = "=" then label ++ "=\x27" ++ g3 ++ "\x27"
    else if op = "!=" then label ++ "=\x27" ++ g3 ++ "\x27"
    else "<unknown field>"

/-- Digit run to a natural number. -/
def digitsToNat (ds : List Char) : Nat := ds.foldl (fun n c => n * 10 + (c.toNat - 48)) 0

/-- Digits part of `strconv.Atoi`: at least one digit, all digits. -/
def goAtoiDigits (ds : List Char) (sign : Int) : Option Int :=
  if ds ≠ [] ∧ ds.all Char.isDigit then some (sign * (digitsToNat ds : Int)) else none

/-- `strconv.Atoi`: optional sign followed by one or more digits.  The
int64 overflow cutoff is irrelevant at the magnitudes the handler sees and is
outside the modelled fragment.  On failure Go returns the pair
`(0, err)`. -/
def goAtoi (s : String) : Option Int :=
  match s.data with
  | '+' :: t => goAtoiDigits t 1
  | '-' :: t => goAtoiDigits t (-1)
  | t => goAtoiDigits t 1

/-- Lines 468-471 of `listRunsHandler`:
`last, err := strconv.Atoi(string(ctx.QueryArgs().Peek("last")))`
followed by `if err == nil \x7b last = 30 \x7d`; when Atoi fails its
integer result is 0 and nothing overwrites it. -/
def listRunsEffectiveLast (lastParam : String) : Int :=
  match goAtoi lastParam with
  | some _ => 30
  | none => 0

/-- Outcome of a Go computation that can panic at run time. -/
inductive GoResult (α : Type) where
  | ok (val : α) : GoResult α
  | panicked : GoResult α
deriving DecidableEq

/-- Assignment `m[k] = v` on a Go map value: assigning through a nil
map panics with "assignment to entry in nil map"; a non-nil map is
updated in place. -/
def goMapAssign {α : Type} (m : Option (List (String × α))) (k : String) (v : α) :
    GoResult (Option (List (String × α))) :=
  match m with
  | none => GoResult.panicked
  | some l => GoResult.ok (some (alSet l k v))

/-- Go `string(i)` conversion of the `range` index used as map key in
the label loops: the one-rune string of code point `i`. -/
def goIndexKeyString (i : Nat) : String := String.mk [Char.ofNat i]

/-- The label-collection loop shared by the four bulk handlers:
`var labels map[string]string` (nil, never initialized) followed by
`labels[string(key)] = parseLabelToV3IOFilterSubexpression(pfx, value)`
over the "label" query parameters, starting at index 0. -/
def labelsLoopAux (labelPrefix : String) (m : Option (List (String × String))) :
    Nat → List String → GoResult (Option (List (String × String)))
  | _, [] => GoResult.ok m
  | i, p :: ps =>
    match goMapAssign m (goIndexKeyString i)
        (parseLabelToV3IOFilterSubexpression labelPrefix p) with
    | GoResult.ok m2 => labelsLoopAux labelPrefix m2 (i + 1) ps
    | GoResult.panicked => GoResult.panicked

/-- Label stage of `listRunsHandler` (handlers.go:480-484). -/
def listRunsLabelsStage (params : List String) : GoResult (Option (List (String × String))) :=
  labelsLoopAux "metadata" none 0 params

/-- Label stage of `deleteRunsHandler` (handlers.go:551-555). -/
def deleteRunsLabelsStage (params : List String) : GoResult (Option (List (String × String))) :=
  labelsLoopAux "" none 0 params

/-- Label stage of `listArtifactsHandler` (handlers.go:676-681). -/
def listArtifactsLabelsStage (params : List String) : GoResult (Option (List (String × String))) :=
  labelsLoopAux "metadata" none 0 params

/-- Label stage of `deleteArtifactsHandler` (handlers.go:745-750). -/
def deleteArtifactsLabelsStage (params : List String) : GoResult (Option (List (String × String))) :=
  labelsLoopAux "metadata" none 0 params

/-- A character that cannot take part in a label operator match:
none of `~`, `!`, `=` (and, for model fidelity, not a newline, which the `.`
metacharacter of Go regexps would refuse to match). -/
def NoOpChar (c : Char) : Prop :=
  c ≠ '~' ∧ c ≠ '!' ∧ c ≠ '=' ∧ c ≠ '\n'

instance (c : Char) : Decidable (NoOpChar c) :=
  inferInstanceAs (Decidable (_ ∧ _ ∧ _ ∧ _))

/-- Leap year in the proleptic Gregorian calendar used by Go time. -/
def isLeapYear (y : Nat) : Bool := y % 4 = 0 && (y % 100 != 0 || y % 400 = 0)

/-- Number of days in month `m` of year `y`. -/
def daysInMonth (y m : Nat) : Nat :=
  if m = 2 then (if isLeapYear y then 29 else 28)
  else if m = 4 ∨ m = 6 ∨ m = 9 ∨ m = 11 then 30
  else 31

/-- Days from 1970-01-01 to year `y`, month `m`, day `d` (civil,
proleptic Gregorian) via the standard era-based algorithm, computed in
Nat after shifting the year by 10000 (an exact multiple of the
400-year era, 3652425 days). -/
def epochDays (y m d : Nat) : Int :=
  let y1 := y + 10000
  let yAdj := if m ≤ 2 then y1 - 1 else y1
  let era := yAdj / 400
  let yoe := yAdj - era * 400
  let mp := (m + 9) % 12
  let doy := (153 * mp + 2) / 5 + d - 1
  let doe := yoe * 365 + yoe / 4 - yoe / 100 + doy
  (era * 146097 + doe : Int) - 3652425 - 719468

/-- The digit at position `i`, if `cs.getD i` is a digit. -/
def digitAt (cs : List Char) (i : Nat) : Option Nat :=
  let c := cs.getD i ' '
  if '0' ≤ c ∧ c ≤ '9' then some (c.toNat - 48) else none

/-- The `n`-digit decimal number starting at position `i`. -/
def digitsAt (cs : List Char) (i n : Nat) : Option Nat :=
  (List.range n).foldl
    (fun acc j =>
      match acc, digitAt cs (i + j) with
      | some a, some d => some (a * 10 + d)
      | _, _ => none)
    (some 0)

/-- `time.Parse("2006-01-02 15:04:05.000000", s)` followed by
`t.UnixNano()` (handlers.go:151,156): the fixed-width layout
`YYYY-MM-DD HH:MM:SS.ffffff` in UTC with exactly six fractional
digits; out-of-range components are parse errors.  Returns nanoseconds
since the Unix epoch. -/
def timeParse (s : String) : Option Int :=
  let cs := s.data
  if cs.length = 26 ∧ cs.getD 4 ' ' = '-' ∧ cs.getD 7 ' ' = '-' ∧
      cs.getD 10 ' ' = ' ' ∧ cs.getD 13 ' ' = ':' ∧ cs.getD 16 ' ' = ':' ∧
      cs.getD 19 ' ' = '.' then
    match digitsAt cs 0 4, digitsAt cs 5 2, digitsAt cs 8 2, digitsAt cs 11 2,
        digitsAt cs 14 2, digitsAt cs 17 2, digitsAt cs 20 6 with
    | some y, some mo, some d, some h, some mi, some sec, some micro =>
      if 1 ≤ mo ∧ mo ≤ 12 ∧ 1 ≤ d ∧ d ≤ daysInMonth y mo ∧ h ≤ 23 ∧ mi ≤ 59 ∧ sec ≤ 59 then
        some ((epochDays y mo d * 86400 + (h * 3600 + mi * 60 + sec : Nat)) * 1000000000 +
          (micro * 1000 : Nat))
      else none
    | _, _, _, _, _, _, _ => none
  else none

/-- A scalar v3io attribute value.  The two envelope types contain only
string, integer and string-map fields, so the boolean and float
branches of the reflective switch never fire and are omitted. -/
inductive Attr where
  | int (n : Int) : Attr
  | str (s : String) : Attr
deriving DecidableEq

/-- `invalidString` (handlers.go:44). -/
def invalidString : String := "?invalid"

/-- `invalidInt` (handlers.go:46); Go compares `fieldValue.Int()`
against `int64(invalidInt)`. -/
def invalidInt : Int := 0xBADACAFE

/-- The `Metadata` struct of `runMetadataEnvelope` (handlers.go:81).
A nil labels map is modelled as the empty list (iterating a nil Go map
yields nothing). -/
structure RunMetadata where
  name : String
  uid : String
  iteration : Int
  project : String
  labels : List (String × String)
deriving DecidableEq

/-- The `Status` struct of `runMetadataEnvelope` (handlers.go:88);
`lastTime` and `startTime` carry the `last_update` / `start_time` JSON
field tags. -/
structure RunStatus where
  state : String
  lastTime : String
  startTime : String
deriving DecidableEq

/-- `runMetadataEnvelope` (handlers.go:80). -/
structure RunMetadataEnvelope where
  metadata : RunMetadata
  status : RunStatus
deriving DecidableEq

/-- `artifactMetadataEnvelope` (handlers.go:105). -/
structure ArtifactMetadataEnvelope where
  name : String
  labels : List (String × String)
deriving DecidableEq

/-- String-field step of `metadataToV3ioAttributes` (the
`reflect.String` case, handlers.go:148-158): the sentinel is skipped; a
value matching the timestamp layout is emitted only as the derived
`<name>Epoch` integer attribute (the inner assignment shadows
`encodedName` with the Epoch key, and the plain-string assignment sits
in the parse-error branch), any other value as the plain string
attribute. -/
def putString (m : List (String × Attr)) (name v : String) : List (String × Attr) :=
  if v = invalidString then m
  else
    match timeParse v with
    | none => alSet m (encodeAttributeName name) (Attr.str v)
    | some t => alSet m (encodeAttributeName (name ++ "Epoch")) (Attr.int t)

/-- Integer-field step (the `reflect.Int*` case, handlers.go:138-141). -/
def putInt (m : List (String × Attr)) (name : String) (v : Int) : List (String × Attr) :=
  if v = invalidInt then m else alSet m (encodeAttributeName name) (Attr.int v)

/-- Map-field step (the `reflect.Map` case, handlers.go:159-164): one
attribute per label key, named `<name>.<key>`. -/
def putLabels (m : List (String × Attr)) (name : String)
    (ls : List (String × String)) : List (String × Attr) :=
  ls.foldl
    (fun m2 kv => alSet m2 (encodeAttributeName (name ++ "." ++ kv.1)) (Attr.str kv.2)) m

/-- `metadataToV3ioAttributes` (handlers.go:119) instantiated at
`runMetadataEnvelope`: the reflective walk visits struct fields in
declaration order, lower-cases field names, and prefixes nested struct
fields with `parent.`. -/
def metadataToV3ioAttributesRun (e : RunMetadataEnvelope) : List (String × Attr) :=
  let m : List (String × Attr) := []
  let m := putString m "metadata.name" e.metadata.name
  let m := putString m "metadata.uid" e.metadata.uid
  let m := putInt m "metadata.iteration" e.metadata.iteration
  let m := putString m "metadata.project" e.metadata.project
  let m := putLabels m "metadata.labels" e.metadata.labels
  let m := putString m "status.state" e.status.state
  let m := putString m "status.lasttime" e.status.lastTime
  let m := putString m "status.starttime" e.status.startTime
  m

/-- `metadataToV3ioAttributes` instantiated at
`artifactMetadataEnvelope`. -/
def metadataToV3ioAttributesArtifact (e : ArtifactMetadataEnvelope) :
    List (String × Attr) :=
  let m : List (String × Attr) := []
  let m := putString m "name" e.name
  let m := putLabels m "labels" e.labels
  m

/-- Complete characterization of the attributes a string envelope field
with raw name `name` and value `v` holds in the flattened map `m`. -/
def StringFieldSpec (m : List (String × Attr)) (name v : String) : Prop :=
  if v = invalidString then
    alGet m (encodeAttributeName name) = none ∧
    alGet m (encodeAttributeName (name ++ "Epoch")) = none
  else
    match timeParse v with
    | none =>
      alGet m (encodeAttributeName name) = some (Attr.str v) ∧
      alGet m (encodeAttributeName (name ++ "Epoch")) = none
    | some t =>
      alGet m (encodeAttributeName name) = none ∧
      alGet m (encodeAttributeName (name ++ "Epoch")) = some (Attr.int t)

/-- Characterization of an integer envelope field in the flattened
map. -/
def IntFieldSpec (m : List (String × Attr)) (name : String) (v : Int) : Prop :=
  if v = invalidInt then alGet m (encodeAttributeName name) = none
  else alGet m (encodeAttributeName name) = some (Attr.int v)

/-- One run item as the listing loop of `listRunsHandler` sees it: the
outcome of `GetFieldInt("status_lasttimeEpoch")` and the raw `_data_`
blob. -/
structure RunItem where
  epoch : Option Int
  blob : String
deriving DecidableEq

/-- The derived sort key of an item whose epoch attribute is present. -/
def runItemKey (it : RunItem) : Int := it.epoch.getD 0

/-- The key-gathering loop (handlers.go:517-527): per item a key — the
last-update epoch when present, else the post-incremented dummy
counter — appended to `keys`, and the blob stored in the key-indexed
map `resultMapByTime`. -/
def gatherRuns : List RunItem → Int × List Int × List (Int × String) →
    Int × List Int × List (Int × String)
  | [], st => st
  | it :: rest, (dummy, keys, m) =>
    match it.epoch with
    | some k => gatherRuns rest (dummy, keys ++ [k], alSet m k it.blob)
    | none => gatherRuns rest (dummy + 1, keys ++ [dummy], alSet m dummy it.blob)

/-- Descending insertion into a non-increasing list. -/
def sortDescInsert (k : Int) : List Int → List Int
  | [] => [k]
  | j :: js => if k > j then k :: j :: js else j :: sortDescInsert k js

/-- `sort.Slice(keys, func(i, j int) bool \x7b return keys[i] > keys[j] \x7d)`
(handlers.go:529): with a strict comparator the resulting
non-increasing reordering is unique as a list, so insertion sort is
exactly it. -/
def sortDesc (l : List Int) : List Int := l.foldr sortDescInsert []

/-- Descending insertion of a run item by its derived key. -/
def sortItemsDescInsert (it : RunItem) : List RunItem → List RunItem
  | [] => [it]
  | j :: js => if runItemKey it > runItemKey j then it :: j :: js
    else j :: sortItemsDescInsert it js

/-- Sorting whole items descending by the derived key (used to state
the refinement of the key-map implementation). -/
def sortItemsDesc (l : List RunItem) : List RunItem := l.foldr sortItemsDescInsert []

/-- Lines 512-543 of `listRunsHandler`: gather keys and blobs, sort the
keys descending when sorting was requested or a limit is in force,
truncate to the limit, and assemble the `\x7b"runs": [...]\x7d` response
body from the stored blobs joined by commas.  (A negative limit, which
the handler cannot produce, would panic in Go at the slice expression
and is outside the modelled fragment.) -/
def listRunsBody (items : List RunItem) (doSort : String) (last : Int) : String :=
  let st := gatherRuns items (0, [], [])
  let keys := st.2.1
  let m := st.2.2
  let keys2 := if doSort = "true" ∨ last ≠ 0 then sortDesc keys else keys
  let n := if last ≠ 0 ∧ (keys2.length : Int) > last then last.toNat else keys2.length
  "\x7b\"runs\": [" ++
    String.intercalate "," ((keys2.take n).map (fun k => (alGet m k).getD "")) ++ "]\x7d"

/-- Two dot-paths conflict when either is a prefix of the other: setting
one then affects what the other addresses. -/
def PathConflict (p q : List String) : Prop := p <+: q ∨ q <+: p

instance (p q : List String) : Decidable (PathConflict p q) :=
  inferInstanceAs (Decidable (p <+: q ∨ q <+: p))

theorem PathConflict.symm {p q : List String} (h : PathConflict p q) : PathConflict q p :=
  h.elim Or.inr Or.inl

theorem alSet_of_not_mem {κ α : Type} [DecidableEq κ] (m : List (κ × α)) (k : κ) (v : α)
    (h : ∀ kv ∈ m, kv.1 ≠ k) : alSet m k v = m ++ [(k, v)] := by
  induction m with
  | nil => simp [alSet]
  | cons a m ih =>
    have ha := h a (List.mem_cons_self a m)
    simp only [alSet, if_neg ha, List.cons_append, List.cons.injEq, true_and]
    exact ih (fun kv hkv => h kv (List.mem_cons_of_mem a hkv))

theorem foldl_alSet_eq_append {κ α : Type} [DecidableEq κ] (fs : List (κ × α)) :
    ∀ acc : List (κ × α), (fs.map Prod.fst).Nodup →
      (∀ kv ∈ fs, ∀ kw ∈ acc, kw.1 ≠ kv.1) →
      fs.foldl (fun m kv => alSet m kv.1 kv.2) acc = acc ++ fs := by
  induction fs with
  | nil => intro acc _ _; simp
  | cons a fs ih =>
    intro acc hnd hdisj
    simp only [List.map_cons, List.nodup_cons] at hnd
    simp only [List.foldl_cons]
    rw [alSet_of_not_mem acc a.1 a.2
      (fun kw hkw => hdisj a (List.mem_cons_self a fs) kw hkw)]
    rw [ih (acc ++ [a]) hnd.2 ?_]
    · simp
    · intro kv hkv kw hkw
      rcases List.mem_append.mp hkw with h | h
      · exact hdisj kv (List.mem_cons_of_mem a hkv) kw h
      · have : kw = a := by simpa using h
        subst this
        intro he
        exact hnd.1 (he ▸ List.mem_map_of_mem Prod.fst hkv)

/-- With duplicate-free keys, unmarshalling an object reproduces its
field list. -/
theorem unmarshalMap_nodup (fs : List (String × JSON))
    (h : (fs.map Prod.fst).Nodup) : unmarshalMap (JSON.obj fs) = some fs := by
  simp only [unmarshalMap, Option.some.injEq]
  rw [foldl_alSet_eq_append fs [] h (by intro kv _ kw hkw; cases hkw)]
  simp

/-- Applying patch fields whose paths all avoid `p` leaves `p` unread. -/
theorem getPath_applyPatchFields_frame (fs : List (String × JSON)) :
    ∀ (b : JSON) (p : List String),
      (∀ kv ∈ fs, ¬ PathConflict (splitPath kv.1) p) →
      getPath (applyPatchFields b fs) p = getPath b p := by
  induction fs with
  | nil => intro b p _; rfl
  | cons a fs ih =>
    intro b p h
    have ha := h a (List.mem_cons_self a fs)
    simp only [applyPatchFields, List.foldl_cons] at *
    rw [ih (sjsonSet b (splitPath a.1) a.2) p
      (fun kv hkv => h kv (List.mem_cons_of_mem a hkv))]
    exact getPath_sjsonSet_frame (splitPath a.1) p b a.2
      (fun hc => ha (Or.inr hc)) (fun hc => ha (Or.inl hc))

/-- With pairwise non-conflicting paths, every patch field ends up
readable at its own path after the whole fold. -/
theorem getPath_applyPatchFields_self (fs : List (String × JSON))
    (hpw : fs.Pairwise (fun a c => ¬ PathConflict (splitPath a.1) (splitPath c.1))) :
    ∀ (b : JSON), ∀ kv ∈ fs,
      getPath (applyPatchFields b fs) (splitPath kv.1) = some kv.2 := by
  induction fs with
  | nil => intro b kv hkv; cases hkv
  | cons a fs ih =>
    intro b kv hkv
    obtain ⟨hhead, htail⟩ := List.pairwise_cons.mp hpw
    simp only [applyPatchFields, List.foldl_cons]
    rcases List.mem_cons.mp hkv with h | h
    · subst h
      have hframe : getPath (applyPatchFields (sjsonSet b (splitPath kv.1) kv.2) fs)
          (splitPath kv.1) = getPath (sjsonSet b (splitPath kv.1) kv.2) (splitPath kv.1) :=
        getPath_applyPatchFields_frame fs _ _
          (fun c hc hcon => hhead c hc hcon.symm)
      simp only [applyPatchFields] at hframe
      rw [hframe]
      exact getPath_sjsonSet_self (splitPath kv.1) b kv.2
    · have := ih htail (sjsonSet b (splitPath a.1) a.2) kv h
      simpa [applyPatchFields] using this

/-- Claim C2 evaluation (code bug): the guard on lines 468-471 is
`if err == nil \x7b last = 30 \x7d`, so a successfully parsed limit "5"
is overwritten with 30 while an unparsable limit "abc" leaves the
Atoi error value 0 (unbounded) in place — the opposite of the claimed
default-on-parse-error behaviour. -/
theorem C2_limit_default_guard_is_inverted :
    listRunsEffectiveLast "5" = 30 ∧ listRunsEffectiveLast "abc" = 0 ∧
    listRunsEffectiveLast "" = 0 := by
  decide

/-- Claim C3 evaluation (code bug): on the token "k~=v" with prefix
"metadata" the parser emits the equality clause on the mangled key
"k~" (sanitized to "metadata_k_"), not the claimed contains clause —
the greedy first capture group of `labelParsingRegex` swallows the
tilde, so the `~=` switch arm is unreachable. -/
theorem C3_tilde_token_compiles_to_equality :
    parseLabelToV3IOFilterSubexpression "metadata" "k~=v" = "metadata_k_=\x27v\x27" ∧
    parseLabelToV3IOFilterSubexpression "metadata" "k~=v" ≠
      "contains(metadata_k,\x27v\x27)" := by
  decide

/-- Claim C5: every list-runs, delete-runs, list-artifacts or
delete-artifacts request carrying at least one "label" query parameter
panics in the label-collection loop, because the handler assigns into
the declared-but-never-initialized (nil) `labels` map; no such request
reaches filter construction. -/
theorem C5_label_requests_panic_on_nil_map :
    ∀ params : List String, params ≠ [] →
      listRunsLabelsStage params = GoResult.panicked ∧
      deleteRunsLabelsStage params = GoResult.panicked ∧
      listArtifactsLabelsStage params = GoResult.panicked ∧
      deleteArtifactsLabelsStage params = GoResult.panicked := by
  intro params h
  cases params with
  | nil => exact absurd rfl h
  | cons p ps =>
    exact ⟨rfl, rfl, rfl, rfl⟩

/-- Witness for C5 at the single label parameter "a=b". -/
theorem C5_label_requests_panic_on_nil_map_witness :
    (["a=b"] : List String) ≠ [] ∧
    listRunsLabelsStage ["a=b"] = GoResult.panicked ∧
    deleteRunsLabelsStage ["a=b"] = GoResult.panicked ∧
    listArtifactsLabelsStage ["a=b"] = GoResult.panicked ∧
    deleteArtifactsLabelsStage ["a=b"] = GoResult.panicked :=
  ⟨by decide, C5_label_requests_panic_on_nil_map ["a=b"] (by decide)⟩

theorem strData_append (a b : String) : (a ++ b).data = a.data ++ b.data := by
  cases a; cases b; rfl

theorem strMk_data (a : String) : String.mk a.data = a := by
  cases a; rfl

theorem encodeAttributeName_append (a b : String) :
    encodeAttributeName (a ++ b) = encodeAttributeName a ++ encodeAttributeName b := by
  cases a with
  | mk da =>
    cases b with
    | mk db =>
      show String.mk _ = String.mk _ ++ String.mk _
      simp [strData_append, List.map_append]
      rfl

theorem noOpChar_getD (vd : List Char) (hvc : ∀ c ∈ vd, NoOpChar c) :
    ∀ m : Nat, NoOpChar (vd.getD m ' ') := by
  induction vd with
  | nil => intro m; simp [List.getD]; decide
  | cons c t ih =>
    intro m
    cases m with
    | zero => simpa using hvc c (List.mem_cons_self c t)
    | succ m =>
      simpa using ih (fun d hd => hvc d (List.mem_cons_of_mem c hd)) m

theorem opMatchAt_none (cs : List Char) (i : Nat) (h : NoOpChar (cs.getD i ' ')) :
    opMatchAt cs i = none := by
  obtain ⟨h1, h2, h3, _⟩ := h
  rw [opMatchAt, if_neg (fun hc => h1 hc.1), if_neg (fun hc => h2 hc.1),
    if_neg (fun hc => h3 hc.1)]

theorem bestSplitAux_eq (cs : List Char) (j : Nat) (op : String) (len : Nat)
    (hj1 : 1 ≤ j) (hmatch : opMatchAt cs j = some (op, len)) :
    ∀ n, j ≤ n → (∀ i, j < i → i ≤ n → opMatchAt cs i = none) →
      bestSplitAux cs n = some (j, op, len) := by
  intro n
  induction n with
  | zero => intro h _; omega
  | succ n ih =>
    intro hn habove
    by_cases hje : j = n + 1
    · subst hje
      simp [bestSplitAux, hmatch]
    · have hnone : opMatchAt cs (n + 1) = none :=
        habove (n + 1) (by omega) (Nat.le_refl _)
      simp only [bestSplitAux, hnone]
      exact ih (by omega) (fun i h1 h2 => habove i h1 (by omega))

theorem strExt {a b : String} (h : a.data = b.data) : a = b :=
  congrArg String.mk h

theorem strAppend_assoc (a b c : String) : a ++ b ++ c = a ++ (b ++ c) := by
  cases a; cases b; cases c
  apply strExt
  simp [strData_append]

theorem encodeAttributeName_data (s : String) :
    (encodeAttributeName s).data = s.data.map encodeChar := rfl

theorem strData_ne_nil (s : String) (h : s ≠ "") : s.data ≠ [] := by
  intro hd
  apply h
  cases s
  simp only at hd
  subst hd
  rfl

theorem splitCharsOn_of_not_mem (sep : Char) (cs : List Char) (h : sep ∉ cs) :
    splitCharsOn sep cs = [cs] := by
  induction cs with
  | nil => rfl
  | cons c rest ih =>
    have hc : c ≠ sep := fun he => h (he ▸ List.mem_cons_self c rest)
    have ihr := ih (fun hm => h (List.mem_cons_of_mem c hm))
    simp only [splitCharsOn, if_neg hc, ihr]

theorem findLabelSubmatch_of_no_newline (text : String) (h : '\n' ∉ text.data) :
    findLabelSubmatch text = findLabelSubmatchSeg text.data := by
  rw [findLabelSubmatch, splitCharsOn_of_not_mem _ _ h]
  cases hseg : findLabelSubmatchSeg text.data <;> simp [List.findSome?, hseg]

/-- On a newline-free token `key!=value` whose value part contains no
operator characters, the greedy first group captures `key!` and the
matched operator is `=` (never `!=`). -/
theorem findLabelSubmatch_bangEq (key value : String) (hv : value ≠ "")
    (hknl : ∀ c ∈ key.data, c ≠ '\n')
    (hvc : ∀ c ∈ value.data, NoOpChar c) :
    findLabelSubmatch (key ++ "!=" ++ value) = some (key ++ "!", "=", value) := by
  have hvd : value.data ≠ [] := strData_ne_nil value hv
  have hvlen : 0 < value.data.length := List.length_pos.mpr hvd
  have hdata : (key ++ "!=" ++ value).data = (key.data ++ ['!', '=']) ++ value.data := by
    rw [strData_append, strData_append]
  have hl2 : (key.data ++ ['!', '=']).length = key.data.length + 2 := by
    simp
  have hlen : ((key.data ++ ['!', '=']) ++ value.data).length =
      key.data.length + 2 + value.data.length := by
    simp only [List.length_append, hl2]
  have hsplit : ((key.data ++ ['!', '=']) ++ value.data).getD (key.data.length + 1) ' ' =
      '=' := by
    rw [List.getD_append _ _ _ _ (by rw [hl2]; omega)]
    rw [List.getD_append_right _ _ _ _ (by omega)]
    rw [show key.data.length + 1 - key.data.length = 1 from by omega]
    rfl
  have hmatch : opMatchAt ((key.data ++ ['!', '=']) ++ value.data)
      (key.data.length + 1) = some ("=", 1) := by
    rw [opMatchAt]
    rw [if_neg (fun hc => by rw [hsplit] at hc; exact absurd hc.1 (by decide))]
    rw [if_neg (fun hc => by rw [hsplit] at hc; exact absurd hc.1 (by decide))]
    rw [if_pos ⟨hsplit, by rw [hlen]; omega⟩]
  have habove : ∀ i, key.data.length + 1 < i →
      i ≤ ((key.data ++ ['!', '=']) ++ value.data).length →
      opMatchAt ((key.data ++ ['!', '=']) ++ value.data) i = none := by
    intro i h1 _
    apply opMatchAt_none
    rw [List.getD_append_right _ _ _ _ (by rw [hl2]; omega)]
    exact noOpChar_getD value.data hvc _
  have hbest : bestSplitAux ((key.data ++ ['!', '=']) ++ value.data)
      ((key.data ++ ['!', '=']) ++ value.data).length =
      some (key.data.length + 1, "=", 1) :=
    bestSplitAux_eq _ _ _ _ (by omega) hmatch _ (by rw [hlen]; omega) habove
  have htake : ((key.data ++ ['!', '=']) ++ value.data).take (key.data.length + 1) =
      key.data ++ ['!'] := by
    rw [show (key.data ++ ['!', '=']) ++ value.data =
      (key.data ++ ['!']) ++ ('=' :: value.data) from by simp]
    rw [show key.data.length + 1 = (key.data ++ ['!']).length from by simp]
    exact List.take_left _ _
  have hdrop : ((key.data ++ ['!', '=']) ++ value.data).drop (key.data.length + 1 + 1) =
      value.data := by
    rw [show key.data.length + 1 + 1 = (key.data ++ ['!', '=']).length from by rw [hl2]]
    exact List.drop_left _ _
  have hnl : '\n' ∉ (key ++ "!=" ++ value).data := by
    rw [hdata]
    intro hm
    rcases List.mem_append.mp hm with hm | hm
    · rcases List.mem_append.mp hm with hm | hm
      · exact hknl _ hm rfl
      · simp at hm
    · exact (hvc _ hm).2.2.2 rfl
  rw [findLabelSubmatch_of_no_newline _ hnl, hdata, findLabelSubmatchSeg, hbest]
  simp only [htake, hdrop]
  rw [show key.data ++ ['!'] = (key ++ "!").data from by rw [strData_append]]

/-- On a newline-free token `key=value` with non-empty key whose value
part contains no operator characters, the regex splits at the explicit
`=`. -/
theorem findLabelSubmatch_eqOp (key value : String) (hk : key ≠ "") (hv : value ≠ "")
    (hknl : ∀ c ∈ key.data, c ≠ '\n')
    (hvc : ∀ c ∈ value.data, NoOpChar c) :
    findLabelSubmatch (key ++ "=" ++ value) = some (key, "=", value) := by
  have hkd : key.data ≠ [] := strData_ne_nil key hk
  have hklen : 0 < key.data.length := List.length_pos.mpr hkd
  have hvd : value.data ≠ [] := strData_ne_nil value hv
  have hvlen : 0 < value.data.length := List.length_pos.mpr hvd
  have hdata : (key ++ "=" ++ value).data = (key.data ++ ['=']) ++ value.data := by
    rw [strData_append, strData_append]
  have hl2 : (key.data ++ ['=']).length = key.data.length + 1 := by
    simp
  have hlen : ((key.data ++ ['=']) ++ value.data).length =
      key.data.length + 1 + value.data.length := by
    simp only [List.length_append, hl2]
  have hsplit : ((key.data ++ ['=']) ++ value.data).getD key.data.length ' ' = '=' := by
    rw [List.getD_append _ _ _ _ (by rw [hl2]; omega)]
    rw [List.getD_append_right _ _ _ _ (by omega)]
    rw [show key.data.length - key.data.length = 0 from by omega]
    rfl
  have hmatch : opMatchAt ((key.data ++ ['=']) ++ value.data) key.data.length =
      some ("=", 1) := by
    rw [opMatchAt]
    rw [if_neg (fun hc => by rw [hsplit] at hc; exact absurd hc.1 (by decide))]
    rw [if_neg (fun hc => by rw [hsplit] at hc; exact absurd hc.1 (by decide))]
    rw [if_pos ⟨hsplit, by rw [hlen]; omega⟩]
  have habove : ∀ i, key.data.length < i →
      i ≤ ((key.data ++ ['=']) ++ value.data).length →
      opMatchAt ((key.data ++ ['=']) ++ value.data) i = none := by
    intro i h1 _
    apply opMatchAt_none
    rw [List.getD_append_right _ _ _ _ (by rw [hl2]; omega)]
    exact noOpChar_getD value.data hvc _
  have hbest : bestSplitAux ((key.data ++ ['=']) ++ value.data)
      ((key.data ++ ['=']) ++ value.data).length =
      some (key.data.length, "=", 1) :=
    bestSplitAux_eq _ _ _ _ (by omega) hmatch _ (by rw [hlen]; omega) habove
  have htake : ((key.data ++ ['=']) ++ value.data).take key.data.length = key.data := by
    rw [show (key.data ++ ['=']) ++ value.data =
      key.data ++ ('=' :: value.data) from by simp]
    exact List.take_left _ _
  have hdrop : ((key.data ++ ['=']) ++ value.data).drop (key.data.length + 1) =
      value.data := by
    rw [show key.data.length + 1 = (key.data ++ ['=']).length from by rw [hl2]]
    exact List.drop_left _ _
  have hnl : '\n' ∉ (key ++ "=" ++ value).data := by
    rw [hdata]
    intro hm
    rcases List.mem_append.mp hm with hm | hm
    · rcases List.mem_append.mp hm with hm | hm
      · exact hknl _ hm rfl
      · simp at hm
    · exact (hvc _ hm).2.2.2 rfl
  rw [findLabelSubmatch_of_no_newline _ hnl, hdata, findLabelSubmatchSeg, hbest]
  simp only [htake, hdrop]

theorem strLen_append (a b : String) :
    (a ++ b).data.length = a.data.length + b.data.length := by
  rw [strData_append, List.length_append]

/-- Claim C4, amended: for every label prefix, every non-empty
newline-free key, and every non-empty value containing neither an
operator character (`~`, `!`, `=`) nor a newline, both `key!=value`
and `key=value` compile to equality clauses quoting the same value —
the negation never negates — but never to the same filter string: the
greedy first capture group folds the `!` into the key, so the `!=`
token gains one extra sanitized character in its attribute name, a
trailing underscore.  (A value containing an operator character moves
the greedy split; a newline restricts the match to one line; both are
excluded by hypothesis.) -/
theorem C4_bang_token_equals_eq_clause_with_mangled_key :
    ∀ (labelPrefix key value : String), key ≠ "" → value ≠ "" →
      (∀ c ∈ key.data, c ≠ '\n') →
      (∀ c ∈ value.data, NoOpChar c) →
      parseLabelToV3IOFilterSubexpression labelPrefix (key ++ "!=" ++ value) =
        encodeAttributeName ((if labelPrefix ≠ "" then labelPrefix ++ "." else labelPrefix)
          ++ (key ++ "!")) ++ "=\x27" ++ value ++ "\x27" ∧
      parseLabelToV3IOFilterSubexpression labelPrefix (key ++ "=" ++ value) =
        encodeAttributeName ((if labelPrefix ≠ "" then labelPrefix ++ "." else labelPrefix)
          ++ key) ++ "=\x27" ++ value ++ "\x27" ∧
      encodeAttributeName ((if labelPrefix ≠ "" then labelPrefix ++ "." else labelPrefix)
          ++ (key ++ "!")) =
        encodeAttributeName ((if labelPrefix ≠ "" then labelPrefix ++ "." else labelPrefix)
          ++ key) ++ "_" ∧
      parseLabelToV3IOFilterSubexpression labelPrefix (key ++ "!=" ++ value) ≠
        parseLabelToV3IOFilterSubexpression labelPrefix (key ++ "=" ++ value) := by
  intro labelPrefix key value hk hv hknl hvc
  have h1 : parseLabelToV3IOFilterSubexpression labelPrefix (key ++ "!=" ++ value) =
      encodeAttributeName ((if labelPrefix ≠ "" then labelPrefix ++ "." else labelPrefix)
        ++ (key ++ "!")) ++ "=\x27" ++ value ++ "\x27" := by
    simp [parseLabelToV3IOFilterSubexpression,
      findLabelSubmatch_bangEq key value hv hknl hvc]
  have h2 : parseLabelToV3IOFilterSubexpression labelPrefix (key ++ "=" ++ value) =
      encodeAttributeName ((if labelPrefix ≠ "" then labelPrefix ++ "." else labelPrefix)
        ++ key) ++ "=\x27" ++ value ++ "\x27" := by
    simp [parseLabelToV3IOFilterSubexpression,
      findLabelSubmatch_eqOp key value hk hv hknl hvc]
  have h3 : encodeAttributeName ((if labelPrefix ≠ "" then labelPrefix ++ "." else labelPrefix)
      ++ (key ++ "!")) =
      encodeAttributeName ((if labelPrefix ≠ "" then labelPrefix ++ "." else labelPrefix)
        ++ key) ++ "_" := by
    rw [← strAppend_assoc, encodeAttributeName_append,
      show encodeAttributeName "!" = "_" from by decide]
  have h4 : parseLabelToV3IOFilterSubexpression labelPrefix (key ++ "!=" ++ value) ≠
      parseLabelToV3IOFilterSubexpression labelPrefix (key ++ "=" ++ value) := by
    rw [h1, h2]
    intro heq
    have hlen := congrArg (fun s : String => s.data.length) heq
    simp only [strLen_append, encodeAttributeName_data, List.length_map,
      show ("!" : String).data.length = 1 from rfl,
      show ("=\x27" : String).data.length = 2 from rfl,
      show ("\x27" : String).data.length = 1 from rfl] at hlen
    omega
  exact ⟨h1, h2, h3, h4⟩

/-- Witness for C4 at prefix "metadata", key "k", value "v". -/
theorem C4_bang_token_equals_eq_clause_with_mangled_key_witness :
    (("k" : String) ≠ "" ∧ ("v" : String) ≠ "" ∧
      (∀ c ∈ ("k" : String).data, c ≠ '\n') ∧
      (∀ c ∈ ("v" : String).data, NoOpChar c)) ∧
    (parseLabelToV3IOFilterSubexpression "metadata" ("k" ++ "!=" ++ "v") =
        encodeAttributeName ((if ("metadata" : String) ≠ "" then "metadata" ++ "." else "metadata")
          ++ ("k" ++ "!")) ++ "=\x27" ++ "v" ++ "\x27" ∧
      parseLabelToV3IOFilterSubexpression "metadata" ("k" ++ "=" ++ "v") =
        encodeAttributeName ((if ("metadata" : String) ≠ "" then "metadata" ++ "." else "metadata")
          ++ "k") ++ "=\x27" ++ "v" ++ "\x27" ∧
      encodeAttributeName ((if ("metadata" : String) ≠ "" then "metadata" ++ "." else "metadata")
          ++ ("k" ++ "!")) =
        encodeAttributeName ((if ("metadata" : String) ≠ "" then "metadata" ++ "." else "metadata")
          ++ "k") ++ "_" ∧
      parseLabelToV3IOFilterSubexpression "metadata" ("k" ++ "!=" ++ "v") ≠
        parseLabelToV3IOFilterSubexpression "metadata" ("k" ++ "=" ++ "v")) :=
  ⟨⟨by decide, by decide, by decide, by decide⟩,
    C4_bang_token_equals_eq_clause_with_mangled_key "metadata" "k" "v"
      (by decide) (by decide) (by decide) (by decide)⟩

/-- Counterexample to C4 as stated: the tokens "k!=v" and "k=v" do not
compile to the same filter subexpression — the attribute name of the
former gains a trailing underscore from the sanitized `!`. -/
theorem C4_counterexample_bang_and_eq_strings_differ :
    parseLabelToV3IOFilterSubexpression "metadata" "k!=v" = "metadata_k_=\x27v\x27" ∧
    parseLabelToV3IOFilterSubexpression "metadata" "k=v" = "metadata_k=\x27v\x27" ∧
    parseLabelToV3IOFilterSubexpression "metadata" "k!=v" ≠
      parseLabelToV3IOFilterSubexpression "metadata" "k=v" := by
  decide

theorem putString_invalid {v : String} (hv : v = invalidString) (m : List (String × Attr))
    (name : String) : putString m name v = m := by
  simp [putString, hv]

theorem putString_ofParse_none {v : String} (hv : v ≠ invalidString)
    (ht : timeParse v = none) (m : List (String × Attr)) (name : String) :
    putString m name v = alSet m (encodeAttributeName name) (Attr.str v) := by
  simp [putString, hv, ht]

theorem putString_ofParse_some {v : String} {t : Int} (hv : v ≠ invalidString)
    (ht : timeParse v = some t) (m : List (String × Attr)) (name : String) :
    putString m name v = alSet m (encodeAttributeName (name ++ "Epoch")) (Attr.int t) := by
  simp [putString, hv, ht]

theorem putInt_invalid {v : Int} (hv : v = invalidInt) (m : List (String × Attr))
    (name : String) : putInt m name v = m := by
  simp [putInt, hv]

theorem putInt_valid {v : Int} (hv : v ≠ invalidInt) (m : List (String × Attr))
    (name : String) :
    putInt m name v = alSet m (encodeAttributeName name) (Attr.int v) := by
  simp [putInt, hv]

theorem alGet_putString_ne (m : List (String × Attr)) (name v K : String)
    (h1 : encodeAttributeName name ≠ K)
    (h2 : encodeAttributeName (name ++ "Epoch") ≠ K) :
    alGet (putString m name v) K = alGet m K := by
  by_cases hv : v = invalidString
  · simp [putString, hv]
  · cases ht : timeParse v with
    | none => rw [putString_ofParse_none hv ht, alGet_alSet_ne _ _ (Ne.symm h1)]
    | some t => rw [putString_ofParse_some hv ht, alGet_alSet_ne _ _ (Ne.symm h2)]

theorem alGet_putInt_ne (m : List (String × Attr)) (name : String) (v : Int) (K : String)
    (h1 : encodeAttributeName name ≠ K) :
    alGet (putInt m name v) K = alGet m K := by
  by_cases hv : v = invalidInt
  · simp [putInt, hv]
  · rw [putInt_valid hv, alGet_alSet_ne _ _ (Ne.symm h1)]

theorem enc_append_ne (a k K : String)
    (h : ¬ ((encodeAttributeName a).data <+: K.data)) :
    encodeAttributeName (a ++ k) ≠ K := by
  intro he
  apply h
  rw [← he, encodeAttributeName_append, strData_append]
  exact List.prefix_append _ _

theorem alGet_putLabels_ne (ls : List (String × String)) :
    ∀ (m : List (String × Attr)) (name K : String),
      ¬ ((encodeAttributeName (name ++ ".")).data <+: K.data) →
      alGet (putLabels m name ls) K = alGet m K := by
  induction ls with
  | nil => intro m name K _; rfl
  | cons kv t ih =>
    intro m name K h
    simp only [putLabels, List.foldl_cons] at *
    rw [ih _ name K h]
    rw [show name ++ "." ++ kv.1 = (name ++ ".") ++ kv.1 from rfl]
    exact alGet_alSet_ne _ _ (Ne.symm (enc_append_ne (name ++ ".") kv.1 K h))

theorem StringFieldSpec_putString (m : List (String × Attr)) (name v : String)
    (hne : encodeAttributeName name ≠ encodeAttributeName (name ++ "Epoch"))
    (h1 : alGet m (encodeAttributeName name) = none)
    (h2 : alGet m (encodeAttributeName (name ++ "Epoch")) = none) :
    StringFieldSpec (putString m name v) name v := by
  unfold StringFieldSpec
  by_cases hv : v = invalidString
  · rw [if_pos hv, putString_invalid hv]
    exact ⟨h1, h2⟩
  · rw [if_neg hv]
    cases ht : timeParse v with
    | none =>
      rw [putString_ofParse_none hv ht]
      exact ⟨alGet_alSet_self _ _ _, by rw [alGet_alSet_ne _ _ (Ne.symm hne)]; exact h2⟩
    | some t =>
      rw [putString_ofParse_some hv ht]
      exact ⟨by rw [alGet_alSet_ne _ _ hne]; exact h1, alGet_alSet_self _ _ _⟩

theorem StringFieldSpec_lift (m m2 : List (String × Attr)) (name v : String)
    (h : StringFieldSpec m name v)
    (h1 : alGet m2 (encodeAttributeName name) = alGet m (encodeAttributeName name))
    (h2 : alGet m2 (encodeAttributeName (name ++ "Epoch")) =
      alGet m (encodeAttributeName (name ++ "Epoch"))) :
    StringFieldSpec m2 name v := by
  unfold StringFieldSpec at h ⊢
  by_cases hv : v = invalidString
  · rw [if_pos hv] at h ⊢
    exact ⟨h1.trans h.1, h2.trans h.2⟩
  · rw [if_neg hv] at h ⊢
    cases ht : timeParse v with
    | none =>
      simp only [ht] at h ⊢
      exact ⟨h1.trans h.1, h2.trans h.2⟩
    | some t =>
      simp only [ht] at h ⊢
      exact ⟨h1.trans h.1, h2.trans h.2⟩

theorem IntFieldSpec_putInt (m : List (String × Attr)) (name : String) (v : Int)
    (h1 : alGet m (encodeAttributeName name) = none) :
    IntFieldSpec (putInt m name v) name v := by
  unfold IntFieldSpec
  by_cases hv : v = invalidInt
  · rw [if_pos hv, putInt_invalid hv]
    exact h1
  · rw [if_neg hv, putInt_valid hv]
    exact alGet_alSet_self _ _ _

theorem IntFieldSpec_lift (m m2 : List (String × Attr)) (name : String) (v : Int)
    (h : IntFieldSpec m name v)
    (h1 : alGet m2 (encodeAttributeName name) = alGet m (encodeAttributeName name)) :
    IntFieldSpec m2 name v := by
  unfold IntFieldSpec at h ⊢
  by_cases hv : v = invalidInt
  · rw [if_pos hv] at h ⊢
    exact h1.trans h
  · rw [if_neg hv] at h ⊢
    exact h1.trans h

/-- Full characterization of the attribute map derived from a run
envelope: each scalar field contributes exactly the attribute its
value and the sentinel/timestamp rules dictate. -/
theorem metadataToV3ioAttributesRun_spec (e : RunMetadataEnvelope) :
    StringFieldSpec (metadataToV3ioAttributesRun e) "metadata.name" e.metadata.name ∧
    StringFieldSpec (metadataToV3ioAttributesRun e) "metadata.uid" e.metadata.uid ∧
    IntFieldSpec (metadataToV3ioAttributesRun e) "metadata.iteration" e.metadata.iteration ∧
    StringFieldSpec (metadataToV3ioAttributesRun e) "metadata.project" e.metadata.project ∧
    StringFieldSpec (metadataToV3ioAttributesRun e) "status.state" e.status.state ∧
    StringFieldSpec (metadataToV3ioAttributesRun e) "status.lasttime" e.status.lastTime ∧
    StringFieldSpec (metadataToV3ioAttributesRun e) "status.starttime" e.status.startTime := by
  simp only [metadataToV3ioAttributesRun]
  refine ⟨?_, ?_, ?_, ?_, ?_, ?_, ?_⟩
  · refine StringFieldSpec_lift _ _ _ _
      (StringFieldSpec_putString []
        "metadata.name" e.metadata.name (by decide)
        rfl
        rfl) ?_ ?_
    · rw [alGet_putString_ne _ _ _ _ (by decide) (by decide),
        alGet_putString_ne _ _ _ _ (by decide) (by decide),
        alGet_putString_ne _ _ _ _ (by decide) (by decide),
        alGet_putLabels_ne _ _ _ _ (by decide),
        alGet_putString_ne _ _ _ _ (by decide) (by decide),
        alGet_putInt_ne _ _ _ _ (by decide),
        alGet_putString_ne _ _ _ _ (by decide) (by decide)]
    · rw [alGet_putString_ne _ _ _ _ (by decide) (by decide),
        alGet_putString_ne _ _ _ _ (by decide) (by decide),
        alGet_putString_ne _ _ _ _ (by decide) (by decide),
        alGet_putLabels_ne _ _ _ _ (by decide),
        alGet_putString_ne _ _ _ _ (by decide) (by decide),
        alGet_putInt_ne _ _ _ _ (by decide),
        alGet_putString_ne _ _ _ _ (by decide) (by decide)]
  · refine StringFieldSpec_lift _ _ _ _
      (StringFieldSpec_putString (putString [] "metadata.name" e.metadata.name)
        "metadata.uid" e.metadata.uid (by decide)
        (by
        rw [alGet_putString_ne _ _ _ _ (by decide) (by decide)]
        rfl)
        (by
        rw [alGet_putString_ne _ _ _ _ (by decide) (by decide)]
        rfl)) ?_ ?_
    · rw [alGet_putString_ne _ _ _ _ (by decide) (by decide),
        alGet_putString_ne _ _ _ _ (by decide) (by decide),
        alGet_putString_ne _ _ _ _ (by decide) (by decide),
        alGet_putLabels_ne _ _ _ _ (by decide),
        alGet_putString_ne _ _ _ _ (by decide) (by decide),
        alGet_putInt_ne _ _ _ _ (by decide)]
    · rw [alGet_putString_ne _ _ _ _ (by decide) (by decide),
        alGet_putString_ne _ _ _ _ (by decide) (by decide),
        alGet_putString_ne _ _ _ _ (by decide) (by decide),
        alGet_putLabels_ne _ _ _ _ (by decide),
        alGet_putString_ne _ _ _ _ (by decide) (by decide),
        alGet_putInt_ne _ _ _ _ (by decide)]
  · refine IntFieldSpec_lift _ _ _ _
      (IntFieldSpec_putInt (putString (putString [] "metadata.name" e.metadata.name) "metadata.uid" e.metadata.uid)
        "metadata.iteration" e.metadata.iteration
        (by
        rw [alGet_putString_ne _ _ _ _ (by decide) (by decide),
          alGet_putString_ne _ _ _ _ (by decide) (by decide)]
        rfl)) ?_
    · rw [alGet_putString_ne _ _ _ _ (by decide) (by decide),
        alGet_putString_ne _ _ _ _ (by decide) (by decide),
        alGet_putString_ne _ _ _ _ (by decide) (by decide),
        alGet_putLabels_ne _ _ _ _ (by decide),
        alGet_putString_ne _ _ _ _ (by decide) (by decide)]
  · refine StringFieldSpec_lift _ _ _ _
      (StringFieldSpec_putString (putInt (putString (putString [] "metadata.name" e.metadata.name) "metadata.uid" e.metadata.uid) "metadata.iteration" e.metadata.iteration)
        "metadata.project" e.metadata.project (by decide)
        (by
        rw [alGet_putInt_ne _ _ _ _ (by decide),
          alGet_putString_ne _ _ _ _ (by decide) (by decide),
          alGet_putString_ne _ _ _ _ (by decide) (by decide)]
        rfl)
        (by
        rw [alGet_putInt_ne _ _ _ _ (by decide),
          alGet_putString_ne _ _ _ _ (by decide) (by decide),
          alGet_putString_ne _ _ _ _ (by decide) (by decide)]
        rfl)) ?_ ?_
    · rw [alGet_putString_ne _ _ _ _ (by decide) (by decide),
        alGet_putString_ne _ _ _ _ (by decide) (by decide),
        alGet_putString_ne _ _ _ _ (by decide) (by decide),
        alGet_putLabels_ne _ _ _ _ (by decide)]
    · rw [alGet_putString_ne _ _ _ _ (by decide) (by decide),
        alGet_putString_ne _ _ _ _ (by decide) (by decide),
        alGet_putString_ne _ _ _ _ (by decide) (by decide),
        alGet_putLabels_ne _ _ _ _ (by decide)]
  · refine StringFieldSpec_lift _ _ _ _
      (StringFieldSpec_putString (putLabels (putString (putInt (putString (putString [] "metadata.name" e.metadata.name) "metadata.uid" e.metadata.uid) "metadata.iteration" e.metadata.iteration) "metadata.project" e.metadata.project) "metadata.labels" e.metadata.labels)
        "status.state" e.status.state (by decide)
        (by
        rw [alGet_putLabels_ne _ _ _ _ (by decide),
          alGet_putString_ne _ _ _ _ (by decide) (by decide),
          alGet_putInt_ne _ _ _ _ (by decide),
          alGet_putString_ne _ _ _ _ (by decide) (by decide),
          alGet_putString_ne _ _ _ _ (by decide) (by decide)]
        rfl)
        (by
        rw [alGet_putLabels_ne _ _ _ _ (by decide),
          alGet_putString_ne _ _ _ _ (by decide) (by decide),
          alGet_putInt_ne _ _ _ _ (by decide),
          alGet_putString_ne _ _ _ _ (by decide) (by decide),
          alGet_putString_ne _ _ _ _ (by decide) (by decide)]
        rfl)) ?_ ?_
    · rw [alGet_putString_ne _ _ _ _ (by decide) (by decide),
        alGet_putString_ne _ _ _ _ (by decide) (by decide)]
    · rw [alGet_putString_ne _ _ _ _ (by decide) (by decide),
        alGet_putString_ne _ _ _ _ (by decide) (by decide)]
  · refine StringFieldSpec_lift _ _ _ _
      (StringFieldSpec_putString (putString (putLabels (putString (putInt (putString (putString [] "metadata.name" e.metadata.name) "metadata.uid" e.metadata.uid) "metadata.iteration" e.metadata.iteration) "metadata.project" e.metadata.project) "metadata.labels" e.metadata.labels) "status.state" e.status.state)
        "status.lasttime" e.status.lastTime (by decide)
        (by
        rw [alGet_putString_ne _ _ _ _ (by decide) (by decide),
          alGet_putLabels_ne _ _ _ _ (by decide),
          alGet_putString_ne _ _ _ _ (by decide) (by decide),
          alGet_putInt_ne _ _ _ _ (by decide),
          alGet_putString_ne _ _ _ _ (by decide) (by decide),
          alGet_putString_ne _ _ _ _ (by decide) (by decide)]
        rfl)
        (by
        rw [alGet_putString_ne _ _ _ _ (by decide) (by decide),
          alGet_putLabels_ne _ _ _ _ (by decide),
          alGet_putString_ne _ _ _ _ (by decide) (by decide),
          alGet_putInt_ne _ _ _ _ (by decide),
          alGet_putString_ne _ _ _ _ (by decide) (by decide),
          alGet_putString_ne _ _ _ _ (by decide) (by decide)]
        rfl)) ?_ ?_
    · rw [alGet_putString_ne _ _ _ _ (by decide) (by decide)]
    · rw [alGet_putString_ne _ _ _ _ (by decide) (by decide)]
  · refine StringFieldSpec_putString _ _ _ (by decide) ?_ ?_
    · rw [alGet_putString_ne _ _ _ _ (by decide) (by decide),
        alGet_putString_ne _ _ _ _ (by decide) (by decide),
        alGet_putLabels_ne _ _ _ _ (by decide),
        alGet_putString_ne _ _ _ _ (by decide) (by decide),
        alGet_putInt_ne _ _ _ _ (by decide),
        alGet_putString_ne _ _ _ _ (by decide) (by decide),
        alGet_putString_ne _ _ _ _ (by decide) (by decide)]
      rfl
    · rw [alGet_putString_ne _ _ _ _ (by decide) (by decide),
        alGet_putString_ne _ _ _ _ (by decide) (by decide),
        alGet_putLabels_ne _ _ _ _ (by decide),
        alGet_putString_ne _ _ _ _ (by decide) (by decide),
        alGet_putInt_ne _ _ _ _ (by decide),
        alGet_putString_ne _ _ _ _ (by decide) (by decide),
        alGet_putString_ne _ _ _ _ (by decide) (by decide)]
      rfl

/-- Characterization of the name attribute of an artifact envelope. -/
theorem metadataToV3ioAttributesArtifact_spec (e : ArtifactMetadataEnvelope) :
    StringFieldSpec (metadataToV3ioAttributesArtifact e) "name" e.name := by
  simp only [metadataToV3ioAttributesArtifact]
  refine StringFieldSpec_lift _ _ _ _
    (StringFieldSpec_putString [] "name" e.name (by decide) rfl rfl) ?_ ?_
  · rw [alGet_putLabels_ne _ _ _ _ (by decide)]
  · rw [alGet_putLabels_ne _ _ _ _ (by decide)]

theorem StringFieldSpec_presence (m : List (String × Attr)) (name v : String)
    (h : StringFieldSpec m name v) :
    (v = invalidString →
      alGet m (encodeAttributeName name) = none ∧
      alGet m (encodeAttributeName (name ++ "Epoch")) = none) ∧
    (v ≠ invalidString →
      (alGet m (encodeAttributeName name)).isSome = true ∨
      (alGet m (encodeAttributeName (name ++ "Epoch"))).isSome = true) := by
  unfold StringFieldSpec at h
  by_cases hv : v = invalidString
  · rw [if_pos hv] at h
    exact ⟨fun _ => h, fun hne => absurd hv hne⟩
  · rw [if_neg hv] at h
    refine ⟨fun he => absurd he hv, fun _ => ?_⟩
    cases ht : timeParse v with
    | none =>
      simp only [ht] at h
      exact Or.inl (by rw [h.1]; rfl)
    | some t =>
      simp only [ht] at h
      exact Or.inr (by rw [h.2]; rfl)

theorem IntFieldSpec_presence (m : List (String × Attr)) (name : String) (v : Int)
    (h : IntFieldSpec m name v) :
    (v = invalidInt → alGet m (encodeAttributeName name) = none) ∧
    (v ≠ invalidInt → alGet m (encodeAttributeName name) = some (Attr.int v)) := by
  unfold IntFieldSpec at h
  by_cases hv : v = invalidInt
  · rw [if_pos hv] at h
    exact ⟨fun _ => h, fun hne => absurd hv hne⟩
  · rw [if_neg hv] at h
    exact ⟨fun he => absurd he hv, fun _ => h⟩

theorem StringFieldSpec_epoch (m : List (String × Attr)) (name v : String) (t : Int)
    (h : StringFieldSpec m name v) (ht : timeParse v = some t) :
    alGet m (encodeAttributeName (name ++ "Epoch")) = some (Attr.int t) ∧
    alGet m (encodeAttributeName name) = none := by
  unfold StringFieldSpec at h
  have hv : v ≠ invalidString := by
    intro he
    rw [he, show timeParse invalidString = none from by decide] at ht
    cases ht
  rw [if_neg hv] at h
  simp only [ht] at h
  exact ⟨h.2, h.1⟩

/-- Claim C6: for every metadata envelope record (run or artifact), the
attribute flattening emits no attribute for a field still holding its
type-specific sentinel value, and emits an attribute for a field
holding any other value, including the empty string and the integer 0
(neither envelope type has boolean or float fields, so those sentinel
branches have nothing to produce). -/
theorem C6_sentinel_fields_omitted_nonsentinel_emitted :
    ∀ (e : RunMetadataEnvelope) (a : ArtifactMetadataEnvelope),
      (e.metadata.name = invalidString →
        alGet (metadataToV3ioAttributesRun e) (encodeAttributeName "metadata.name") = none ∧
        alGet (metadataToV3ioAttributesRun e)
          (encodeAttributeName ("metadata.name" ++ "Epoch")) = none) ∧
      (e.metadata.name ≠ invalidString →
        (alGet (metadataToV3ioAttributesRun e) (encodeAttributeName "metadata.name")).isSome = true ∨
        (alGet (metadataToV3ioAttributesRun e)
          (encodeAttributeName ("metadata.name" ++ "Epoch"))).isSome = true) ∧
      (e.metadata.uid = invalidString →
        alGet (metadataToV3ioAttributesRun e) (encodeAttributeName "metadata.uid") = none ∧
        alGet (metadataToV3ioAttributesRun e)
          (encodeAttributeName ("metadata.uid" ++ "Epoch")) = none) ∧
      (e.metadata.uid ≠ invalidString →
        (alGet (metadataToV3ioAttributesRun e) (encodeAttributeName "metadata.uid")).isSome = true ∨
        (alGet (metadataToV3ioAttributesRun e)
          (encodeAttributeName ("metadata.uid" ++ "Epoch"))).isSome = true) ∧
      (e.metadata.project = invalidString →
        alGet (metadataToV3ioAttributesRun e) (encodeAttributeName "metadata.project") = none ∧
        alGet (metadataToV3ioAttributesRun e)
          (encodeAttributeName ("metadata.project" ++ "Epoch")) = none) ∧
      (e.metadata.project ≠ invalidString →
        (alGet (metadataToV3ioAttributesRun e) (encodeAttributeName "metadata.project")).isSome = true ∨
        (alGet (metadataToV3ioAttributesRun e)
          (encodeAttributeName ("metadata.project" ++ "Epoch"))).isSome = true) ∧
      (e.status.state = invalidString →
        alGet (metadataToV3ioAttributesRun e) (encodeAttributeName "status.state") = none ∧
        alGet (metadataToV3ioAttributesRun e)
          (encodeAttributeName ("status.state" ++ "Epoch")) = none) ∧
      (e.status.state ≠ invalidString →
        (alGet (metadataToV3ioAttributesRun e) (encodeAttributeName "status.state")).isSome = true ∨
        (alGet (metadataToV3ioAttributesRun e)
          (encodeAttributeName ("status.state" ++ "Epoch"))).isSome = true) ∧
      (e.status.lastTime = invalidString →
        alGet (metadataToV3ioAttributesRun e) (encodeAttributeName "status.lasttime") = none ∧
        alGet (metadataToV3ioAttributesRun e)
          (encodeAttributeName ("status.lasttime" ++ "Epoch")) = none) ∧
      (e.status.lastTime ≠ invalidString →
        (alGet (metadataToV3ioAttributesRun e) (encodeAttributeName "status.lasttime")).isSome = true ∨
        (alGet (metadataToV3ioAttributesRun e)
          (encodeAttributeName ("status.lasttime" ++ "Epoch"))).isSome = true) ∧
      (e.status.startTime = invalidString →
        alGet (metadataToV3ioAttributesRun e) (encodeAttributeName "status.starttime") = none ∧
        alGet (metadataToV3ioAttributesRun e)
          (encodeAttributeName ("status.starttime" ++ "Epoch")) = none) ∧
      (e.status.startTime ≠ invalidString →
        (alGet (metadataToV3ioAttributesRun e) (encodeAttributeName "status.starttime")).isSome = true ∨
        (alGet (metadataToV3ioAttributesRun e)
          (encodeAttributeName ("status.starttime" ++ "Epoch"))).isSome = true) ∧
      (e.metadata.iteration = invalidInt →
        alGet (metadataToV3ioAttributesRun e)
          (encodeAttributeName "metadata.iteration") = none) ∧
      (e.metadata.iteration ≠ invalidInt →
        alGet (metadataToV3ioAttributesRun e) (encodeAttributeName "metadata.iteration") =
          some (Attr.int e.metadata.iteration)) ∧
      (a.name = invalidString →
        alGet (metadataToV3ioAttributesArtifact a) (encodeAttributeName "name") = none ∧
        alGet (metadataToV3ioAttributesArtifact a)
          (encodeAttributeName ("name" ++ "Epoch")) = none) ∧
      (a.name ≠ invalidString →
        (alGet (metadataToV3ioAttributesArtifact a) (encodeAttributeName "name")).isSome = true ∨
        (alGet (metadataToV3ioAttributesArtifact a)
          (encodeAttributeName ("name" ++ "Epoch"))).isSome = true) := by
  intro e a
  obtain ⟨s1, s2, s3, s4, s5, s6, s7⟩ := metadataToV3ioAttributesRun_spec e
  have sa := metadataToV3ioAttributesArtifact_spec a
  have p1 := StringFieldSpec_presence _ _ _ s1
  have p2 := StringFieldSpec_presence _ _ _ s2
  have p4 := StringFieldSpec_presence _ _ _ s4
  have p5 := StringFieldSpec_presence _ _ _ s5
  have p6 := StringFieldSpec_presence _ _ _ s6
  have p7 := StringFieldSpec_presence _ _ _ s7
  have pi := IntFieldSpec_presence _ _ _ s3
  have pa := StringFieldSpec_presence _ _ _ sa
  exact ⟨p1.1, p1.2, p2.1, p2.2, p4.1, p4.2, p5.1, p5.2, p6.1, p6.2, p7.1, p7.2,
    pi.1, pi.2, pa.1, pa.2⟩

/-- Witness for C6: a run envelope with an empty-string name, the
sentinel uid, and iteration 0 shows emission of the empty string and
the zero integer and omission of the sentinel field. -/
theorem C6_sentinel_fields_omitted_nonsentinel_emitted_witness :
    (("" : String) ≠ invalidString ∧ ("?invalid" : String) = invalidString ∧
      (0 : Int) ≠ invalidInt) ∧
    ((alGet (metadataToV3ioAttributesRun
        ⟨⟨"", "?invalid", 0, "p", []⟩, ⟨"done", "?invalid", "?invalid"⟩⟩)
        (encodeAttributeName "metadata.name")).isSome = true ∨
      (alGet (metadataToV3ioAttributesRun
        ⟨⟨"", "?invalid", 0, "p", []⟩, ⟨"done", "?invalid", "?invalid"⟩⟩)
        (encodeAttributeName ("metadata.name" ++ "Epoch"))).isSome = true) ∧
    (alGet (metadataToV3ioAttributesRun
        ⟨⟨"", "?invalid", 0, "p", []⟩, ⟨"done", "?invalid", "?invalid"⟩⟩)
        (encodeAttributeName "metadata.uid") = none ∧
      alGet (metadataToV3ioAttributesRun
        ⟨⟨"", "?invalid", 0, "p", []⟩, ⟨"done", "?invalid", "?invalid"⟩⟩)
        (encodeAttributeName ("metadata.uid" ++ "Epoch")) = none) ∧
    alGet (metadataToV3ioAttributesRun
        ⟨⟨"", "?invalid", 0, "p", []⟩, ⟨"done", "?invalid", "?invalid"⟩⟩)
        (encodeAttributeName "metadata.iteration") = some (Attr.int 0) :=
  ⟨⟨by decide, by decide, by decide⟩,
    (C6_sentinel_fields_omitted_nonsentinel_emitted
      ⟨⟨"", "?invalid", 0, "p", []⟩, ⟨"done", "?invalid", "?invalid"⟩⟩
      ⟨"x", []⟩).2.1 (by decide),
    (C6_sentinel_fields_omitted_nonsentinel_emitted
      ⟨⟨"", "?invalid", 0, "p", []⟩, ⟨"done", "?invalid", "?invalid"⟩⟩
      ⟨"x", []⟩).2.2.1 (by decide),
    (C6_sentinel_fields_omitted_nonsentinel_emitted
      ⟨⟨"", "?invalid", 0, "p", []⟩, ⟨"done", "?invalid", "?invalid"⟩⟩
      ⟨"x", []⟩).2.2.2.2.2.2.2.2.2.2.2.2.2.1 (by decide)⟩

/-- Claim C7, amended: for every envelope string field whose value
matches the fixed timestamp format, the flattening emits the derived
`<name>Epoch` integer attribute (nanoseconds since epoch) and omits
the original human-readable string attribute — the plain-string
assignment sits in the parse-error branch, so the two are never both
present. -/
theorem C7_timestamp_fields_emit_epoch_and_drop_string :
    ∀ (e : RunMetadataEnvelope) (a : ArtifactMetadataEnvelope) (t : Int),
      (timeParse e.metadata.name = some t →
        alGet (metadataToV3ioAttributesRun e)
          (encodeAttributeName ("metadata.name" ++ "Epoch")) = some (Attr.int t) ∧
        alGet (metadataToV3ioAttributesRun e) (encodeAttributeName "metadata.name") = none) ∧
      (timeParse e.metadata.uid = some t →
        alGet (metadataToV3ioAttributesRun e)
          (encodeAttributeName ("metadata.uid" ++ "Epoch")) = some (Attr.int t) ∧
        alGet (metadataToV3ioAttributesRun e) (encodeAttributeName "metadata.uid") = none) ∧
      (timeParse e.metadata.project = some t →
        alGet (metadataToV3ioAttributesRun e)
          (encodeAttributeName ("metadata.project" ++ "Epoch")) = some (Attr.int t) ∧
        alGet (metadataToV3ioAttributesRun e) (encodeAttributeName "metadata.project") = none) ∧
      (timeParse e.status.state = some t →
        alGet (metadataToV3ioAttributesRun e)
          (encodeAttributeName ("status.state" ++ "Epoch")) = some (Attr.int t) ∧
        alGet (metadataToV3ioAttributesRun e) (encodeAttributeName "status.state") = none) ∧
      (timeParse e.status.lastTime = some t →
        alGet (metadataToV3ioAttributesRun e)
          (encodeAttributeName ("status.lasttime" ++ "Epoch")) = some (Attr.int t) ∧
        alGet (metadataToV3ioAttributesRun e) (encodeAttributeName "status.lasttime") = none) ∧
      (timeParse e.status.startTime = some t →
        alGet (metadataToV3ioAttributesRun e)
          (encodeAttributeName ("status.starttime" ++ "Epoch")) = some (Attr.int t) ∧
        alGet (metadataToV3ioAttributesRun e) (encodeAttributeName "status.starttime") = none) ∧
      (timeParse a.name = some t →
        alGet (metadataToV3ioAttributesArtifact a)
          (encodeAttributeName ("name" ++ "Epoch")) = some (Attr.int t) ∧
        alGet (metadataToV3ioAttributesArtifact a) (encodeAttributeName "name") = none) := by
  intro e a t
  obtain ⟨s1, s2, s3, s4, s5, s6, s7⟩ := metadataToV3ioAttributesRun_spec e
  have sa := metadataToV3ioAttributesArtifact_spec a
  exact ⟨fun ht => StringFieldSpec_epoch _ _ _ _ s1 ht,
    fun ht => StringFieldSpec_epoch _ _ _ _ s2 ht,
    fun ht => StringFieldSpec_epoch _ _ _ _ s4 ht,
    fun ht => StringFieldSpec_epoch _ _ _ _ s5 ht,
    fun ht => StringFieldSpec_epoch _ _ _ _ s6 ht,
    fun ht => StringFieldSpec_epoch _ _ _ _ s7 ht,
    fun ht => StringFieldSpec_epoch _ _ _ _ sa ht⟩

/-- Witness for C7 at a run whose last-update time is the timestamp
2021-03-04 05:06:07.000008 (epoch 1614834367000008000 ns). -/
theorem C7_timestamp_fields_emit_epoch_and_drop_string_witness :
    timeParse "2021-03-04 05:06:07.000008" = some 1614834367000008000 ∧
    (alGet (metadataToV3ioAttributesRun
        ⟨⟨"?invalid", "?invalid", 0xBADACAFE, "?invalid", []⟩,
          ⟨"?invalid", "2021-03-04 05:06:07.000008", "?invalid"⟩⟩)
        (encodeAttributeName ("status.lasttime" ++ "Epoch")) =
          some (Attr.int 1614834367000008000) ∧
      alGet (metadataToV3ioAttributesRun
        ⟨⟨"?invalid", "?invalid", 0xBADACAFE, "?invalid", []⟩,
          ⟨"?invalid", "2021-03-04 05:06:07.000008", "?invalid"⟩⟩)
        (encodeAttributeName "status.lasttime") = none) :=
  ⟨by decide,
    (C7_timestamp_fields_emit_epoch_and_drop_string
      ⟨⟨"?invalid", "?invalid", 0xBADACAFE, "?invalid", []⟩,
        ⟨"?invalid", "2021-03-04 05:06:07.000008", "?invalid"⟩⟩
      ⟨"x", []⟩ 1614834367000008000).2.2.2.2.1 (by decide)⟩

/-- Counterexample to C7 as stated: for a run whose last-update time
matches the timestamp format, the derived Epoch attribute is emitted
but the original human-readable string attribute is NOT retained. -/
theorem C7_counterexample_timestamp_string_not_retained :
    (alGet (metadataToV3ioAttributesRun
        ⟨⟨"?invalid", "?invalid", 0xBADACAFE, "?invalid", []⟩,
          ⟨"?invalid", "2021-03-04 05:06:07.000008", "?invalid"⟩⟩)
        "status_lasttimeEpoch").isSome = true ∧
    alGet (metadataToV3ioAttributesRun
        ⟨⟨"?invalid", "?invalid", 0xBADACAFE, "?invalid", []⟩,
          ⟨"?invalid", "2021-03-04 05:06:07.000008", "?invalid"⟩⟩)
        "status_lasttime" = none := by
  decide

theorem gatherRuns_all_some (items : List RunItem) :
    ∀ (d : Int) (ks : List Int) (m : List (Int × String)),
      (∀ it ∈ items, it.epoch.isSome = true) →
      gatherRuns items (d, ks, m) =
        (d, ks ++ items.map runItemKey,
          items.foldl (fun m2 it => alSet m2 (runItemKey it) it.blob) m) := by
  induction items with
  | nil => intro d ks m _; simp [gatherRuns]
  | cons it rest ih =>
    intro d ks m h
    have hit := h it (List.mem_cons_self it rest)
    cases he : it.epoch with
    | none => rw [he] at hit; cases hit
    | some k =>
      have hk : runItemKey it = k := by simp [runItemKey, he]
      simp only [gatherRuns, he]
      rw [ih d (ks ++ [k]) (alSet m k it.blob)
        (fun j hj => h j (List.mem_cons_of_mem it hj))]
      simp [hk, List.append_assoc]

theorem alGet_map_pair (items : List RunItem) :
    ∀ it : RunItem, (items.map runItemKey).Nodup → it ∈ items →
      alGet (items.map (fun i => (runItemKey i, i.blob))) (runItemKey it) =
        some it.blob := by
  induction items with
  | nil => intro it _ hm; cases hm
  | cons a rest ih =>
    intro it hnd hm
    simp only [List.map_cons, List.nodup_cons] at hnd
    rcases List.mem_cons.mp hm with h | h
    · subst h
      simp [alGet]
    · have hne : runItemKey a ≠ runItemKey it := by
        intro he
        exact hnd.1 (he ▸ List.mem_map_of_mem runItemKey h)
      simp only [List.map_cons, alGet, if_neg hne]
      exact ih it hnd.2 h

theorem sortDescInsert_map (it : RunItem) (l : List RunItem) :
    sortDescInsert (runItemKey it) (l.map runItemKey) =
      (sortItemsDescInsert it l).map runItemKey := by
  induction l with
  | nil => rfl
  | cons j js ih =>
    simp only [List.map_cons, sortDescInsert, sortItemsDescInsert]
    by_cases h : runItemKey it > runItemKey j
    · rw [if_pos h, if_pos h]
      rfl
    · rw [if_neg h, if_neg h]
      simp [ih]

theorem sortDesc_map (items : List RunItem) :
    sortDesc (items.map runItemKey) = (sortItemsDesc items).map runItemKey := by
  induction items with
  | nil => rfl
  | cons a rest ih =>
    simp only [sortDesc, sortItemsDesc, List.map_cons, List.foldr_cons] at *
    rw [ih, sortDescInsert_map]

theorem mem_sortItemsDescInsert {x it : RunItem} {l : List RunItem} :
    x ∈ sortItemsDescInsert it l → x = it ∨ x ∈ l := by
  induction l with
  | nil => intro h; simpa [sortItemsDescInsert] using h
  | cons j js ih =>
    intro h
    simp only [sortItemsDescInsert] at h
    by_cases hc : runItemKey it > runItemKey j
    · rw [if_pos hc] at h
      rcases List.mem_cons.mp h with h1 | h1
      · exact Or.inl h1
      · exact Or.inr h1
    · rw [if_neg hc] at h
      rcases List.mem_cons.mp h with h1 | h1
      · exact Or.inr (h1 ▸ List.mem_cons_self j js)
      · rcases ih h1 with h2 | h2
        · exact Or.inl h2
        · exact Or.inr (List.mem_cons_of_mem j h2)

theorem mem_sortItemsDesc {x : RunItem} {items : List RunItem} :
    x ∈ sortItemsDesc items → x ∈ items := by
  induction items with
  | nil => intro h; cases h
  | cons a rest ih =>
    intro h
    rcases mem_sortItemsDescInsert h with h1 | h1
    · exact h1 ▸ List.mem_cons_self a rest
    · exact List.mem_cons_of_mem a (ih h1)

theorem length_sortItemsDescInsert (it : RunItem) (l : List RunItem) :
    (sortItemsDescInsert it l).length = l.length + 1 := by
  induction l with
  | nil => rfl
  | cons j js ih =>
    simp only [sortItemsDescInsert]
    by_cases h : runItemKey it > runItemKey j
    · rw [if_pos h]
      rfl
    · rw [if_neg h]
      simp [ih]

theorem length_sortItemsDesc (items : List RunItem) :
    (sortItemsDesc items).length = items.length := by
  induction items with
  | nil => rfl
  | cons a rest ih =>
    simp only [sortItemsDesc, List.foldr_cons] at *
    rw [length_sortItemsDescInsert, ih]
    rfl

/-- Claim C8, amended: when sorting is requested or the limit is
positive, and every retained run carries a last-update epoch attribute
with the epochs pairwise distinct, the run-listing assembly returns
the stored blobs sorted descending by the derived epoch key and
truncated to the limit; in particular over five stored runs with
distinct epochs [10,50,30,20,40], limit 3 and sort requested, the body
contains exactly the blobs of epochs 50, 40, 30 in that order.  (The
restriction is forced: the blob map is indexed by the key alone, so
runs sharing an epoch — or colliding with a synthetic counter key —
overwrite each other, see the counterexample.) -/
theorem C8_listing_sorts_descending_then_truncates :
    (∀ (items : List RunItem) (doSort : String) (last : Int),
      (∀ it ∈ items, it.epoch.isSome = true) →
      (items.map runItemKey).Nodup →
      (doSort = "true" ∨ last ≠ 0) →
      listRunsBody items doSort last =
        "\x7b\"runs\": [" ++
          String.intercalate ","
            (((sortItemsDesc items).take
              (if last ≠ 0 ∧ (items.length : Int) > last then last.toNat
                else items.length)).map RunItem.blob) ++ "]\x7d") ∧
    listRunsBody
      [⟨some 10, "r1"⟩, ⟨some 50, "r2"⟩, ⟨some 30, "r3"⟩, ⟨some 20, "r4"⟩,
        ⟨some 40, "r5"⟩] "true" 3 = "\x7b\"runs\": [r2,r5,r3]\x7d" := by
  constructor
  · intro items doSort last hsome hnd hcond
    have hm : items.foldl (fun m2 it => alSet m2 (runItemKey it) it.blob) [] =
        items.map (fun i => (runItemKey i, i.blob)) := by
      have h1 : (items.map (fun i => (runItemKey i, i.blob))).foldl
          (fun m2 kv => alSet m2 kv.1 kv.2) [] =
          items.foldl (fun m2 it => alSet m2 (runItemKey it) it.blob) [] :=
        List.foldl_map _ _ _ _
      rw [← h1]
      rw [foldl_alSet_eq_append _ _ ?_ ?_]
      · rw [List.nil_append]
      · rw [List.map_map]
        exact hnd
      · intro kv _ kw hkw
        cases hkw
    simp only [listRunsBody]
    rw [gatherRuns_all_some items 0 [] [] hsome]
    simp only [List.nil_append]
    rw [if_pos hcond, sortDesc_map, hm]
    have hlen : ((sortItemsDesc items).map runItemKey).length = items.length := by
      rw [List.length_map, length_sortItemsDesc]
    rw [hlen]
    rw [← List.map_take, List.map_map]
    have hmap : ((sortItemsDesc items).take
        (if last ≠ 0 ∧ (items.length : Int) > last then last.toNat
          else items.length)).map
          ((fun k => (alGet (items.map fun i => (runItemKey i, i.blob)) k).getD "") ∘
            runItemKey) =
        ((sortItemsDesc items).take
          (if last ≠ 0 ∧ (items.length : Int) > last then last.toNat
            else items.length)).map RunItem.blob := by
      apply List.map_congr_left
      intro x hx
      have hxi : x ∈ items := mem_sortItemsDesc (List.take_subset _ _ hx)
      simp only [Function.comp]
      rw [alGet_map_pair items x hnd hxi]
      rfl
    rw [hmap]
  · decide

/-- Witness for C8 at the five-run example of the spec with limit 3. -/
theorem C8_listing_sorts_descending_then_truncates_witness :
    ((∀ it ∈ ([⟨some 10, "r1"⟩, ⟨some 50, "r2"⟩, ⟨some 30, "r3"⟩, ⟨some 20, "r4"⟩,
        ⟨some 40, "r5"⟩] : List RunItem), it.epoch.isSome = true) ∧
      (([⟨some 10, "r1"⟩, ⟨some 50, "r2"⟩, ⟨some 30, "r3"⟩, ⟨some 20, "r4"⟩,
        ⟨some 40, "r5"⟩] : List RunItem).map runItemKey).Nodup ∧
      (("true" : String) = "true" ∨ (3 : Int) ≠ 0)) ∧
    listRunsBody [⟨some 10, "r1"⟩, ⟨some 50, "r2"⟩, ⟨some 30, "r3"⟩, ⟨some 20, "r4"⟩,
        ⟨some 40, "r5"⟩] "true" 3 =
      "\x7b\"runs\": [" ++
        String.intercalate ","
          (((sortItemsDesc [⟨some 10, "r1"⟩, ⟨some 50, "r2"⟩, ⟨some 30, "r3"⟩, ⟨some 20, "r4"⟩,
        ⟨some 40, "r5"⟩]).take
            (if (3 : Int) ≠ 0 ∧ (([⟨some 10, "r1"⟩, ⟨some 50, "r2"⟩, ⟨some 30, "r3"⟩, ⟨some 20, "r4"⟩,
        ⟨some 40, "r5"⟩] : List RunItem).length : Int) > 3 then
              (3 : Int).toNat
              else ([⟨some 10, "r1"⟩, ⟨some 50, "r2"⟩, ⟨some 30, "r3"⟩, ⟨some 20, "r4"⟩,
        ⟨some 40, "r5"⟩] : List RunItem).length)).map RunItem.blob) ++ "]\x7d" :=
  ⟨⟨by decide, by decide, by decide⟩,
    C8_listing_sorts_descending_then_truncates.1 [⟨some 10, "r1"⟩, ⟨some 50, "r2"⟩, ⟨some 30, "r3"⟩, ⟨some 20, "r4"⟩,
        ⟨some 40, "r5"⟩] "true" 3
      (by decide) (by decide) (by decide)⟩

/-- Counterexample to C8 as stated: with two stored runs sharing the
last-update epoch 10, the key-indexed blob map keeps only the last one
and emits it twice — the response is not the stored blobs sorted
descending and truncated (in either tie order): the first blob is lost
and the second repeated. -/
theorem C8_counterexample_duplicate_epochs_repeat_blob :
    listRunsBody [⟨some 10, "b1"⟩, ⟨some 10, "b2"⟩] "true" 0 =
      "\x7b\"runs\": [b2,b2]\x7d" ∧
    listRunsBody [⟨some 10, "b1"⟩, ⟨some 10, "b2"⟩] "true" 0 ≠
      "\x7b\"runs\": [b1,b2]\x7d" ∧
    listRunsBody [⟨some 10, "b1"⟩, ⟨some 10, "b2"⟩] "true" 0 ≠
      "\x7b\"runs\": [b2,b1]\x7d" := by
  decide
